import Mathlib

/-!
Verification of `scripts/extra/green_ammonia.py` (PyPSA-Earth green-ammonia
extra-functionality hook).

Shallow embedding notes:
* A pypsa network is modelled by its four component collections, each an
  association list keyed by label, in pandas insertion order.
* Numeric quantities (coordinates, costs, efficiencies) are exact rationals.
  `np.linalg.norm` followed by `argmin` is embedded as the first index of the
  minimal *squared* Euclidean distance: `sqrt` is strictly monotone, so the
  argmin (and the first-tie choice) is the same.
* `np.argmin` returns the first index attaining the minimum; this is embedded
  as `List.findIdx` of the minimal value.
* Python dict `.get(k, default)` on typed configuration mappings is embedded
  with `Option` fields and `Option.getD`.
* `pandas.Index.str.contains` performs Python regex matching and raises
  `re.error` on patterns that do not compile (such as "(").  The library
  contract is modelled by `ReEngine` (`compile` yields a per-string matcher
  or fails); `ReEngine.Faithful` records the two documented facts the proofs
  use: a metacharacter-free pattern compiles to literal substring containment
  (`containsSubstr`), and "(" fails to compile.  `closest_bus` and
  `add_green_ammonia` model the program restricted to literal (or absent)
  filters; `closest_bus_re` and `add_green_ammonia_re` model it under the
  full contract, and the two agree on the literal fragment
  (`add_green_ammonia_re_agrees`).
* The in-place mutation of the network is embedded by explicit state passing;
  a raised exception is modelled by returning the network state at raise time
  together with the error, as `Network × Option GAErr`.
-/

/-- `float("inf")` may appear as a capacity bound: a rational or infinity. -/
inductive QInf where
  | val : ℚ → QInf
  | inf : QInf
deriving DecidableEq

/-- A row of `network.buses`: position `x` (longitude), `y` (latitude),
country code, carrier, sub_network. -/
structure Bus where
  x : ℚ
  y : ℚ
  country : String
  carrier : String
  sub_network : String
deriving DecidableEq

/-- A row of `network.links`. -/
structure Link where
  bus0 : String
  bus1 : String
  carrier : String
  efficiency : ℚ
  capital_cost : ℚ
  marginal_cost : ℚ
  lifetime : ℚ
  p_nom_extendable : Bool
  p_nom_max : QInf
deriving DecidableEq

/-- A row of `network.stores`. -/
structure Store where
  bus : String
  carrier : String
  e_cyclic : Bool
  standing_loss : ℚ
  capital_cost : ℚ
  e_nom_extendable : Bool
  e_nom_max : QInf
deriving DecidableEq

/-- The pypsa network: labelled component collections in insertion order. -/
structure Network where
  buses : List (String × Bus)
  links : List (String × Link)
  stores : List (String × Store)
  carriers : List String
deriving DecidableEq

/-- `label in collection.index`. -/
def hasKey {α : Type} (l : List (String × α)) (k : String) : Bool :=
  l.any (fun p => p.1 == k)

/-- `collection.loc[k]` as an option (None models a KeyError). -/
def lookupKey {α : Type} (l : List (String × α)) (k : String) : Option α :=
  (l.find? (fun p => p.1 == k)).map Prod.snd

/-- Does `pre` start the character list `l`? -/
def startsWithChars : List Char → List Char → Bool
  | _, [] => true
  | [], _ :: _ => false
  | a :: as, b :: bs => a == b && startsWithChars as bs

/-- Does `sub` occur contiguously inside `l`? -/
def containsChars : List Char → List Char → Bool
  | [], sub => startsWithChars [] sub
  | a :: as, sub => startsWithChars (a :: as) sub || containsChars as sub

/-- Substring containment on strings (`candidates.index.str.contains(sub)`). -/
def containsSubstr (s sub : String) : Bool :=
  containsChars s.data sub.data

/-- Minimum of a list of rationals (0 for the empty list, never used there). -/
def minQ : List ℚ → ℚ
  | [] => 0
  | [q] => q
  | q :: r :: rest => min q (minQ (r :: rest))

/-- `np.argmin`: first index attaining the minimal value. -/
def argminQ (l : List ℚ) : ℕ :=
  l.findIdx (fun q => q == minQ l)

/-- Squared Euclidean distance from a bus to target `(latitude, longitude)`,
matching `coords = candidates[["y", "x"]]`, `target = [latitude, longitude]`. -/
def dist2 (b : Bus) (la lo : ℚ) : ℚ :=
  (b.y - la) * (b.y - la) + (b.x - lo) * (b.x - lo)

/-- `network.buses[network.buses.country == country_code]`. -/
def countryCands (n : Network) (country : String) : List (String × Bus) :=
  n.buses.filter (fun b => b.2.country == country)

/-- The substring-narrowing step of `_closest_bus`: `if bus_substring:` is
false for `None` and for the empty string; a narrowed set is kept only when
non-empty. -/
def applySubstring (cands : List (String × Bus)) (sub : Option String) :
    List (String × Bus) :=
  match sub with
  | none => cands
  | some s =>
    if s = "" then cands
    else
      let narrowed := cands.filter (fun b => containsSubstr b.1 s)
      if narrowed.isEmpty then cands else narrowed

/-- The final selection step of `_closest_bus`: `candidates.index[0]` when a
coordinate is missing, otherwise the candidate at the `argmin` of the
distances. -/
def pickClosest (cands2 : List (String × Bus)) (lat lon : Option ℚ) :
    Option String :=
  match lat, lon with
  | some la, some lo =>
    (cands2.get? (argminQ (cands2.map (fun b => dist2 b.2 la lo)))).map
      Prod.fst
  | _, _ => cands2.head?.map Prod.fst

/-- `_closest_bus`: `none` models the `ValueError` raised when no bus matches
the country. -/
def closest_bus (n : Network) (country : String) (lat lon : Option ℚ)
    (sub : Option String) : Option String :=
  let cands := countryCands n country
  if cands.isEmpty then none
  else pickClosest (applySubstring cands sub) lat lon

/-- `_ensure_carrier`. -/
def ensure_carrier (n : Network) (name : String) : Network :=
  if name ∈ n.carriers then n
  else { n with carriers := n.carriers ++ [name] }

/-- The `-NH3` bus record created by `_add_bus`: position, country and
sub_network copied from the base bus, the given carrier assigned. -/
def mkNh3Bus (base : Bus) (carrier : String) : Bus :=
  { x := base.x, y := base.y, country := base.country,
    carrier := carrier, sub_network := base.sub_network }

/-- `_add_bus`: looks up the base bus (`none` models a KeyError), then a
guarded insert of the `-NH3` bus copying position and country from the base. -/
def add_bus (n : Network) (base_bus carrier : String) :
    Option (Network × String) :=
  match lookupKey n.buses base_bus with
  | none => none
  | some base =>
    let label := base_bus ++ "-NH3"
    if hasKey n.buses label then some (n, label)
    else
      some ({ n with buses := n.buses ++ [(label, mkNh3Bus base carrier)] },
        label)

/-- The electrolyser / storage / ccgt sub-dictionaries of the configuration:
each recognised key, absent (`none`) or present. -/
structure CompCfg where
  efficiency : Option ℚ := none
  capital_cost : Option ℚ := none
  marginal_cost : Option ℚ := none
  lifetime : Option ℚ := none
  p_nom_max : Option QInf := none
  e_cyclic : Option Bool := none
  standing_loss : Option ℚ := none
  e_nom_max : Option QInf := none
deriving DecidableEq

/-- The empty dictionary for a component configuration. -/
def emptyComp : CompCfg := {}

/-- The electrolyser link record created by `_add_electrolyser`, with the
enumerated defaults for absent keys. -/
def mkElectrolyserLink (base_bus nh3_bus : String) (cfg : CompCfg)
    (carrier_name : String) : Link :=
  { bus0 := base_bus, bus1 := nh3_bus, carrier := carrier_name,
    efficiency := cfg.efficiency.getD (6/10),
    capital_cost := cfg.capital_cost.getD 750000,
    marginal_cost := cfg.marginal_cost.getD (1/2),
    lifetime := cfg.lifetime.getD 20,
    p_nom_extendable := true,
    p_nom_max := cfg.p_nom_max.getD QInf.inf }

/-- `_add_electrolyser`. -/
def add_electrolyser (n : Network) (base_bus nh3_bus : String) (cfg : CompCfg)
    (carrier_name : String) : Network :=
  let label := base_bus ++ "-NH3-electrolyser"
  if hasKey n.links label then n
  else { n with links := n.links ++
    [(label, mkElectrolyserLink base_bus nh3_bus cfg carrier_name)] }

/-- The store record created by `_add_storage`, with the enumerated defaults
for absent keys. -/
def mkStoreRec (nh3_bus : String) (cfg : CompCfg) (carrier_name : String) :
    Store :=
  { bus := nh3_bus, carrier := carrier_name,
    e_cyclic := cfg.e_cyclic.getD true,
    standing_loss := cfg.standing_loss.getD 0,
    capital_cost := cfg.capital_cost.getD 150000,
    e_nom_extendable := true,
    e_nom_max := cfg.e_nom_max.getD QInf.inf }

/-- `_add_storage`. -/
def add_storage (n : Network) (nh3_bus : String) (cfg : CompCfg)
    (carrier_name : String) : Network :=
  let label := nh3_bus ++ "-store"
  if hasKey n.stores label then n
  else { n with stores := n.stores ++
    [(label, mkStoreRec nh3_bus cfg carrier_name)] }

/-- The CCGT link record created by `_add_ccgt`, with the enumerated defaults
for absent keys. -/
def mkCcgtLink (base_bus nh3_bus : String) (cfg : CompCfg)
    (carrier_name : String) : Link :=
  { bus0 := nh3_bus, bus1 := base_bus, carrier := carrier_name,
    efficiency := cfg.efficiency.getD (11/20),
    capital_cost := cfg.capital_cost.getD 900000,
    marginal_cost := cfg.marginal_cost.getD (5/2),
    lifetime := cfg.lifetime.getD 25,
    p_nom_extendable := true,
    p_nom_max := cfg.p_nom_max.getD QInf.inf }

/-- `_add_ccgt`. -/
def add_ccgt (n : Network) (base_bus nh3_bus : String) (cfg : CompCfg)
    (carrier_name : String) : Network :=
  let label := base_bus ++ "-NH3-CCGT"
  if hasKey n.links label then n
  else { n with links := n.links ++
    [(label, mkCcgtLink base_bus nh3_bus cfg carrier_name)] }

/-- The `location` sub-dictionary. -/
structure Location where
  latitude : Option ℚ := none
  longitude : Option ℚ := none
  bus_substring : Option String := none
deriving DecidableEq

/-- The empty `location` dictionary. -/
def emptyLocation : Location := {}

/-- The `carriers` sub-dictionary. -/
structure CarriersCfg where
  ammonia : Option String := none
  to_store : Option String := none
  to_power : Option String := none
deriving DecidableEq

/-- The empty `carriers` dictionary. -/
def emptyCarriers : CarriersCfg := {}

/-- The `green_ammonia` dictionary: each recognised key, absent or present. -/
structure GACfg where
  enable : Option Bool := none
  country_code : Option String := none
  location : Option Location := none
  carriers : Option CarriersCfg := none
  electrolyser : Option CompCfg := none
  storage : Option CompCfg := none
  ccgt : Option CompCfg := none
deriving DecidableEq

/-- The empty `green_ammonia` dictionary. -/
def emptyGA : GACfg := {}

/-- The `custom` sub-dictionary of the full configuration. -/
structure CustomCfg where
  green_ammonia : Option GACfg := none
deriving DecidableEq

/-- The empty `custom` dictionary. -/
def emptyCustom : CustomCfg := {}

/-- The full configuration mapping. -/
structure Config where
  custom : Option CustomCfg := none
deriving DecidableEq

/-- `_get_cfg`: `config.get("custom", {}).get("green_ammonia", {})`. -/
def _get_cfg (config : Config) : GACfg :=
  ((config.custom.getD emptyCustom).green_ammonia).getD emptyGA

/-- The exceptions `add_green_ammonia` can raise at runtime: the explicit
`ValueError` of `_closest_bus`, a `KeyError` from `.loc[base_bus]` (proved
unreachable), and the `re.error` that `str.contains` raises on a pattern
that does not compile. -/
inductive GAErr where
  | valueError : GAErr
  | keyError : GAErr
  | reError : GAErr
deriving DecidableEq

/-- The creation sequence of `add_green_ammonia` with the three carrier names
already resolved: carrier registration followed by the four guarded component
inserts (the `keyError` arm models the `KeyError` that `.loc[base_bus]` would
raise). -/
def inject_core (network : Network) (ga_cfg : GACfg)
    (base_bus carrier_store carrier_electrolyser carrier_ccgt : String) :
    Network × Option GAErr :=
  let n1 := ensure_carrier network carrier_store
  let n2 := ensure_carrier n1 carrier_electrolyser
  let n3 := ensure_carrier n2 carrier_ccgt
  match add_bus n3 base_bus carrier_store with
  | none => (n3, some GAErr.keyError)
  | some (n4, nh3_bus) =>
    let n5 := add_electrolyser n4 base_bus nh3_bus
      (ga_cfg.electrolyser.getD emptyComp) carrier_electrolyser
    let n6 := add_storage n5 nh3_bus
      (ga_cfg.storage.getD emptyComp) carrier_store
    let n7 := add_ccgt n6 base_bus nh3_bus
      (ga_cfg.ccgt.getD emptyComp) carrier_ccgt
    (n7, none)

/-- The body of `add_green_ammonia` after the base bus has been resolved:
the carrier names are read from the configuration (with their defaults) and
passed to `inject_core`. -/
def inject_at (network : Network) (ga_cfg : GACfg) (base_bus : String) :
    Network × Option GAErr :=
  let carriers := ga_cfg.carriers.getD emptyCarriers
  inject_core network ga_cfg base_bus (carriers.ammonia.getD "NH3")
    (carriers.to_store.getD "NH3-electrolyser")
    (carriers.to_power.getD "NH3-power")

/-- `add_green_ammonia`: the hook entry point.  The `snapshots` positional
argument and the `**_` keyword arguments are accepted and ignored.  The result
is the network state paired with `some` error when an exception is raised
(the state at raise time), `none` on normal return. -/
def add_green_ammonia {σ κ : Type} (network : Network) (snapshots : σ)
    (config : Config) (kwargs : κ) : Network × Option GAErr :=
  let ga_cfg := _get_cfg config
  if ¬ (ga_cfg.enable.getD false) then (network, none)
  else
    let country := ga_cfg.country_code.getD "ES"
    let location := ga_cfg.location.getD emptyLocation
    match closest_bus network country location.latitude location.longitude
        location.bus_substring with
    | none => (network, some GAErr.valueError)
    | some base_bus => inject_at network ga_cfg base_bus

/-- The metacharacters of Python regular expressions: a pattern containing
none of them is matched by `re.search` exactly as a literal substring. -/
def regexMetachars : List Char :=
  ['.', '^', '$', '*', '+', '?', '\x7b', '\x7d', '[', ']', '\\', '|',
   '(', ')']

/-- A pattern free of regex metacharacters: it always compiles and matches
literally. -/
def regexLiteral (pat : String) : Bool :=
  pat.data.all (fun c => !(regexMetachars.contains c))

/-- Library contract of `pandas.Series.str.contains` / Python `re`:
compiling a pattern either fails (`none`, modelling `re.error`) or yields a
per-string Boolean matcher that is then applied to every candidate label. -/
structure ReEngine where
  compile : String → Option (String → Bool)

/-- The two documented facts about Python `re` that the proofs rely on: a
metacharacter-free pattern compiles, and matches exactly by literal
substring containment; the lone "(" does not compile. -/
def ReEngine.Faithful (E : ReEngine) : Prop :=
  (∀ pat, regexLiteral pat = true →
    E.compile pat = some (fun s => containsSubstr s pat)) ∧
  E.compile "(" = none

/-- A concrete engine satisfying the contract, used by witnesses and
counterexamples: it compiles exactly the metacharacter-free patterns. -/
def litEngine : ReEngine :=
  ⟨fun pat =>
    if regexLiteral pat then some (fun s => containsSubstr s pat) else none⟩

/-- The substring-narrowing step of `_closest_bus` under the full
`str.contains` contract: an uncompilable pattern raises `re.error`; a
compiled matcher narrows, with the silent fallback when nothing matches. -/
def narrowCandidates (E : ReEngine) (cands : List (String × Bus))
    (sub : Option String) : Except GAErr (List (String × Bus)) :=
  match sub with
  | none => Except.ok cands
  | some s =>
    if s = "" then Except.ok cands
    else
      match E.compile s with
      | none => Except.error GAErr.reError
      | some m =>
        let narrowed := cands.filter (fun b => m b.1)
        Except.ok (if narrowed.isEmpty then cands else narrowed)

/-- The final selection step wrapped in `Except` (the `none` arm is proved
unreachable for non-empty candidate sets). -/
def pickOrErr (cands2 : List (String × Bus)) (lat lon : Option ℚ) :
    Except GAErr String :=
  match pickClosest cands2 lat lon with
  | some lbl => Except.ok lbl
  | none => Except.error GAErr.valueError

/-- `_closest_bus` under the full `str.contains` contract. -/
def closest_bus_re (E : ReEngine) (n : Network) (country : String)
    (lat lon : Option ℚ) (sub : Option String) : Except GAErr String :=
  let cands := countryCands n country
  if cands.isEmpty then Except.error GAErr.valueError
  else
    match narrowCandidates E cands sub with
    | Except.error e => Except.error e
    | Except.ok cands2 => pickOrErr cands2 lat lon

/-- `add_green_ammonia` under the full `str.contains` contract: identical to
`add_green_ammonia` except that the base-bus resolution may also raise
`re.error`. -/
def add_green_ammonia_re {σ κ : Type} (E : ReEngine) (network : Network)
    (snapshots : σ) (config : Config) (kwargs : κ) :
    Network × Option GAErr :=
  let ga_cfg := _get_cfg config
  if ¬ (ga_cfg.enable.getD false) then (network, none)
  else
    let country := ga_cfg.country_code.getD "ES"
    let location := ga_cfg.location.getD emptyLocation
    match closest_bus_re E network country location.latitude
        location.longitude location.bus_substring with
    | Except.error e => (network, some e)
    | Except.ok base_bus => inject_at network ga_cfg base_bus

/-- Condition under which the substring-narrowing step behaves stably when a
bus is appended: the filter, if supplied and non-empty, already matches some
candidate. -/
def subSafe (cands : List (String × Bus)) (sub : Option String) : Prop :=
  match sub with
  | none => True
  | some s => s = "" ∨ cands.filter (fun b => containsSubstr b.1 s) ≠ []

instance (cands : List (String × Bus)) (sub : Option String) :
    Decidable (subSafe cands sub) := by
  unfold subSafe
  match sub with
  | none => exact inferInstanceAs (Decidable True)
  | some s => exact inferInstanceAs (Decidable (_ ∨ _))

/-! ### Concrete example data used by witnesses and counterexamples -/

/-- A bus at position `(x, y)` in the given country. -/
def demoBus (x y : ℚ) (country : String) : Bus :=
  { x := x, y := y, country := country, carrier := "AC", sub_network := "" }

/-- A one-bus Spanish network. -/
def demoNet : Network :=
  { buses := [("b1", demoBus 0 0 "ES")], links := [], stores := [],
    carriers := ["AC"] }

/-- Three Spanish buses at `(0,0)`, `(1,1)` and `(5,5)`. -/
def triNet : Network :=
  { buses := [("bus00", demoBus 0 0 "ES"), ("bus11", demoBus 1 1 "ES"),
      ("bus55", demoBus 5 5 "ES")],
    links := [], stores := [], carriers := [] }

/-- A network whose only bus lies in country "DE" (no Spanish buses). -/
def deNet : Network :=
  { buses := [("d1", demoBus 0 0 "DE")], links := [], stores := [],
    carriers := ["AC"] }

/-- `green_ammonia` configuration that only sets `enable: true`. -/
def enableGA : GACfg := { enable := some true }

/-- Full configuration that only sets `custom.green_ammonia.enable: true`. -/
def enableCfg : Config := { custom := some { green_ammonia := some enableGA } }

/-- `location` dictionary carrying only `bus_substring: "NH3"`. -/
def subLoc : Location := { bus_substring := some "NH3" }

/-- `green_ammonia` configuration enabling the hook with the substring
filter `"NH3"`. -/
def subGA : GACfg := { enable := some true, location := some subLoc }

/-- Full configuration enabling the hook with the substring filter `"NH3"`. -/
def subCfg : Config := { custom := some { green_ammonia := some subGA } }

/-- `location` dictionary carrying the uncompilable regex filter "(". -/
def parenLoc : Location := { bus_substring := some "(" }

/-- `green_ammonia` configuration enabling the hook with the filter "(". -/
def parenGA : GACfg := { enable := some true, location := some parenLoc }

/-- Full configuration enabling the hook with the uncompilable filter. -/
def parenCfg : Config := { custom := some { green_ammonia := some parenGA } }

/-! ### Helper lemmas: strings and association lists -/

theorem string_append_ne_self (s t : String) (ht : t ≠ "") : s ++ t ≠ s := by
  intro h
  apply ht
  have hlen := congrArg String.length h
  rw [String.length_append] at hlen
  have : t.length = 0 := by omega
  cases t with
  | mk data =>
    cases data with
    | nil => rfl
    | cons a as => simp [String.length, List.length] at this

theorem string_append_left_cancel {s t u : String} (h : s ++ t = s ++ u) :
    t = u := by
  have hd := congrArg String.data h
  rw [String.data_append, String.data_append] at hd
  have := List.append_cancel_left hd
  cases t; cases u; simp_all

theorem hasKey_append {α : Type} (l₁ l₂ : List (String × α)) (k : String) :
    hasKey (l₁ ++ l₂) k = (hasKey l₁ k || hasKey l₂ k) := by
  simp [hasKey]

theorem hasKey_iff_exists {α : Type} (l : List (String × α)) (k : String) :
    hasKey l k = true ↔ ∃ p ∈ l, p.1 = k := by
  simp [hasKey, List.any_eq_true]

theorem lookupKey_isSome_of_mem {α : Type} {l : List (String × α)}
    {p : String × α} (hp : p ∈ l) : (lookupKey l p.1).isSome := by
  have hs : (l.find? (fun q => q.1 == p.1)).isSome := by
    rw [List.find?_isSome]
    exact ⟨p, hp, by simp⟩
  simp only [lookupKey]
  cases hf : l.find? (fun q => q.1 == p.1) with
  | none => rw [hf] at hs; simp at hs
  | some w => simp

theorem lookupKey_append_left {α : Type} {l₁ : List (String × α)}
    (l₂ : List (String × α)) {k : String} {v : α}
    (h : lookupKey l₁ k = some v) : lookupKey (l₁ ++ l₂) k = some v := by
  simp only [lookupKey, List.find?_append] at *
  cases hf : l₁.find? (fun p => p.1 == k) with
  | none => rw [hf] at h; simp at h
  | some w => rw [hf] at h; simp_all [Option.or]

theorem lookupKey_eq_of_nodup {α : Type} {l : List (String × α)}
    (hnd : (l.map Prod.fst).Nodup) {p : String × α} (hp : p ∈ l) :
    lookupKey l p.1 = some p.2 := by
  induction l with
  | nil => cases hp
  | cons q l ih =>
    rw [List.map_cons, List.nodup_cons] at hnd
    rcases List.mem_cons.mp hp with h | h
    · subst h
      simp [lookupKey, List.find?_cons]
    · have hne : q.1 ≠ p.1 := by
        intro he
        exact hnd.1 (by rw [he]; exact List.mem_map_of_mem Prod.fst h)
      have hih := ih hnd.2 h
      simp only [lookupKey] at hih ⊢
      rw [List.find?_cons_of_neg _ (by simp [hne])]
      exact hih

/-! ### Helper lemmas: min and argmin -/

theorem minQ_cons_cons (q r : ℚ) (rest : List ℚ) :
    minQ (q :: r :: rest) = min q (minQ (r :: rest)) := rfl

theorem minQ_le {l : List ℚ} {x : ℚ} (hx : x ∈ l) : minQ l ≤ x := by
  induction l with
  | nil => cases hx
  | cons q rest ih =>
    cases rest with
    | nil => simp at hx; simp [minQ, hx]
    | cons r rest2 =>
      rw [minQ_cons_cons]
      rcases List.mem_cons.mp hx with h | h
      · subst h; exact min_le_left _ _
      · exact le_trans (min_le_right _ _) (ih h)

theorem minQ_mem {l : List ℚ} (hl : l ≠ []) : minQ l ∈ l := by
  induction l with
  | nil => exact absurd rfl hl
  | cons q rest ih =>
    cases rest with
    | nil => simp [minQ]
    | cons r rest2 =>
      rw [minQ_cons_cons]
      rcases le_total q (minQ (r :: rest2)) with h | h
      · simp [min_eq_left h]
      · rw [min_eq_right h]
        exact List.mem_cons_of_mem _ (ih (by simp))

theorem minQ_append_singleton {l : List ℚ} (hl : l ≠ []) (x : ℚ) :
    minQ (l ++ [x]) = min (minQ l) x := by
  induction l with
  | nil => exact absurd rfl hl
  | cons q rest ih =>
    cases rest with
    | nil => simp [minQ, minQ_cons_cons]
    | cons r rest2 =>
      have hr : r :: rest2 ≠ [] := by simp
      have h1 : (q :: r :: rest2) ++ [x] = q :: ((r :: rest2) ++ [x]) := rfl
      have h2 : (r :: rest2) ++ [x] = r :: (rest2 ++ [x]) := rfl
      rw [h1]
      rw [show minQ (q :: ((r :: rest2) ++ [x])) =
          min q (minQ ((r :: rest2) ++ [x])) from by rw [h2]; rfl]
      rw [ih hr, minQ_cons_cons, min_assoc]

theorem argminQ_lt_length {l : List ℚ} (hl : l ≠ []) :
    argminQ l < l.length := by
  apply List.findIdx_lt_length_of_exists
  exact ⟨minQ l, minQ_mem hl, by simp⟩

theorem getElem_argminQ {l : List ℚ} (hl : l ≠ [])
    (h : argminQ l < l.length := argminQ_lt_length hl) :
    l[argminQ l] = minQ l := by
  have := @List.findIdx_getElem _ (fun q => q == minQ l) l h
  simpa [argminQ] using this

theorem argminQ_append_of_min_le {l : List ℚ} (hl : l ≠ []) {x : ℚ}
    (hx : minQ l ≤ x) : argminQ (l ++ [x]) = argminQ l := by
  have hmin : minQ (l ++ [x]) = minQ l := by
    rw [minQ_append_singleton hl x, min_eq_left hx]
  unfold argminQ
  rw [hmin, List.findIdx_append]
  have hlt : l.findIdx (fun q => q == minQ l) < l.length :=
    argminQ_lt_length hl
  simp [hlt]

/-! ### Helper lemmas: component operations -/

theorem ensure_carrier_buses (n : Network) (c : String) :
    (ensure_carrier n c).buses = n.buses := by
  unfold ensure_carrier; split <;> rfl

theorem ensure_carrier_links (n : Network) (c : String) :
    (ensure_carrier n c).links = n.links := by
  unfold ensure_carrier; split <;> rfl

theorem ensure_carrier_stores (n : Network) (c : String) :
    (ensure_carrier n c).stores = n.stores := by
  unfold ensure_carrier; split <;> rfl

theorem mem_ensure_carrier_self (n : Network) (c : String) :
    c ∈ (ensure_carrier n c).carriers := by
  unfold ensure_carrier
  split
  · assumption
  · simp

theorem mem_ensure_carrier_of_mem (n : Network) (c x : String)
    (hx : x ∈ n.carriers) : x ∈ (ensure_carrier n c).carriers := by
  unfold ensure_carrier
  split
  · exact hx
  · simp [hx]

theorem ensure_carrier_of_mem (n : Network) (c : String)
    (hc : c ∈ n.carriers) : ensure_carrier n c = n := by
  unfold ensure_carrier
  simp [hc]

theorem add_electrolyser_buses (n : Network) (b nb : String) (cfg : CompCfg)
    (c : String) : (add_electrolyser n b nb cfg c).buses = n.buses := by
  simp only [add_electrolyser]; split <;> rfl

theorem add_electrolyser_stores (n : Network) (b nb : String) (cfg : CompCfg)
    (c : String) : (add_electrolyser n b nb cfg c).stores = n.stores := by
  simp only [add_electrolyser]; split <;> rfl

theorem add_electrolyser_carriers (n : Network) (b nb : String) (cfg : CompCfg)
    (c : String) : (add_electrolyser n b nb cfg c).carriers = n.carriers := by
  simp only [add_electrolyser]; split <;> rfl

theorem add_electrolyser_hasKey (n : Network) (b nb : String) (cfg : CompCfg)
    (c : String) :
    hasKey (add_electrolyser n b nb cfg c).links (b ++ "-NH3-electrolyser") =
      true := by
  simp only [add_electrolyser]
  split
  · assumption
  · simp [hasKey_append, hasKey]

theorem add_electrolyser_of_hasKey (n : Network) (b nb : String) (cfg : CompCfg)
    (c : String) (h : hasKey n.links (b ++ "-NH3-electrolyser") = true) :
    add_electrolyser n b nb cfg c = n := by
  unfold add_electrolyser
  simp [h]

theorem add_storage_buses (n : Network) (nb : String) (cfg : CompCfg)
    (c : String) : (add_storage n nb cfg c).buses = n.buses := by
  simp only [add_storage]; split <;> rfl

theorem add_storage_links (n : Network) (nb : String) (cfg : CompCfg)
    (c : String) : (add_storage n nb cfg c).links = n.links := by
  simp only [add_storage]; split <;> rfl

theorem add_storage_carriers (n : Network) (nb : String) (cfg : CompCfg)
    (c : String) : (add_storage n nb cfg c).carriers = n.carriers := by
  simp only [add_storage]; split <;> rfl

theorem add_storage_hasKey (n : Network) (nb : String) (cfg : CompCfg)
    (c : String) :
    hasKey (add_storage n nb cfg c).stores (nb ++ "-store") = true := by
  simp only [add_storage]
  split
  · assumption
  · simp [hasKey_append, hasKey]

theorem add_storage_of_hasKey (n : Network) (nb : String) (cfg : CompCfg)
    (c : String) (h : hasKey n.stores (nb ++ "-store") = true) :
    add_storage n nb cfg c = n := by
  unfold add_storage
  simp [h]

theorem add_ccgt_buses (n : Network) (b nb : String) (cfg : CompCfg)
    (c : String) : (add_ccgt n b nb cfg c).buses = n.buses := by
  simp only [add_ccgt]; split <;> rfl

theorem add_ccgt_stores (n : Network) (b nb : String) (cfg : CompCfg)
    (c : String) : (add_ccgt n b nb cfg c).stores = n.stores := by
  simp only [add_ccgt]; split <;> rfl

theorem add_ccgt_carriers (n : Network) (b nb : String) (cfg : CompCfg)
    (c : String) : (add_ccgt n b nb cfg c).carriers = n.carriers := by
  simp only [add_ccgt]; split <;> rfl

theorem add_ccgt_hasKey (n : Network) (b nb : String) (cfg : CompCfg)
    (c : String) :
    hasKey (add_ccgt n b nb cfg c).links (b ++ "-NH3-CCGT") = true := by
  simp only [add_ccgt]
  split
  · assumption
  · simp [hasKey_append, hasKey]

theorem add_ccgt_of_hasKey (n : Network) (b nb : String) (cfg : CompCfg)
    (c : String) (h : hasKey n.links (b ++ "-NH3-CCGT") = true) :
    add_ccgt n b nb cfg c = n := by
  unfold add_ccgt
  simp [h]

theorem add_ccgt_hasKey_mono (n : Network) (b nb : String) (cfg : CompCfg)
    (c k : String) (h : hasKey n.links k = true) :
    hasKey (add_ccgt n b nb cfg c).links k = true := by
  simp only [add_ccgt]
  split
  · exact h
  · simp [hasKey_append, h]

/-! ### Helper lemmas: substring narrowing and closest-bus resolution -/

theorem applySubstring_subset (cands : List (String × Bus))
    (sub : Option String) : applySubstring cands sub ⊆ cands := by
  match sub with
  | none => exact fun _ h => h
  | some s =>
    simp only [applySubstring]
    split
    · exact fun _ h => h
    · split
      · exact fun _ h => h
      · exact List.filter_subset' cands

theorem applySubstring_ne_nil {cands : List (String × Bus)} (hc : cands ≠ [])
    (sub : Option String) : applySubstring cands sub ≠ [] := by
  match sub with
  | none => exact hc
  | some s =>
    simp only [applySubstring]
    split
    · exact hc
    · split
      · exact hc
      · next hne => exact fun h => hne (by rw [h]; rfl)

theorem applySubstring_append {cands : List (String × Bus)}
    (x : String × Bus) {sub : Option String} (hsafe : subSafe cands sub) :
    ∃ E, (E = [] ∨ E = [x]) ∧
      applySubstring (cands ++ [x]) sub = applySubstring cands sub ++ E := by
  match sub with
  | none => exact ⟨[x], Or.inr rfl, rfl⟩
  | some s =>
    simp only [applySubstring]
    by_cases hs : s = ""
    · simp only [hs, if_pos]
      exact ⟨[x], Or.inr rfl, rfl⟩
    · have hnar : cands.filter (fun b => containsSubstr b.1 s) ≠ [] := by
        rcases hsafe with h | h
        · exact absurd h hs
        · exact h
      simp only [if_neg hs, List.filter_append]
      have hne2 :
          (cands.filter (fun b => containsSubstr b.1 s) ++
            [x].filter (fun b => containsSubstr b.1 s)).isEmpty = false := by
        rw [List.isEmpty_eq_false]
        intro h
        exact hnar (List.append_eq_nil.mp h).1
      have hne1 : (cands.filter (fun b => containsSubstr b.1 s)).isEmpty
          = false := by rw [List.isEmpty_eq_false]; exact hnar
      rw [hne1, hne2]
      simp only [Bool.false_eq_true, if_false]
      exact ⟨[x].filter (fun b => containsSubstr b.1 s),
        by by_cases hx : containsSubstr x.1 s
           · right; simp [hx]
           · left; simp [hx],
        rfl⟩

theorem closest_bus_congr {n n' : Network} (h : n'.buses = n.buses)
    (c : String) (la lo : Option ℚ) (sub : Option String) :
    closest_bus n' c la lo sub = closest_bus n c la lo sub := by
  unfold closest_bus countryCands
  rw [h]

theorem pickClosest_isSome {cands2 : List (String × Bus)} (hne : cands2 ≠ [])
    (la lo : Option ℚ) : (pickClosest cands2 la lo).isSome := by
  match la, lo with
  | some a, some o =>
    simp only [pickClosest]
    have hlen : argminQ (cands2.map (fun b => dist2 b.2 a o)) <
        cands2.length := by
      have := argminQ_lt_length
        (l := cands2.map (fun b => dist2 b.2 a o)) (by simpa using hne)
      simpa using this
    rw [List.get?_eq_getElem?, List.getElem?_eq_getElem hlen]
    simp
  | none, _ =>
    simp only [pickClosest]
    rcases List.exists_cons_of_ne_nil hne with ⟨b, t, hbt⟩
    rw [hbt]
    simp
  | some _, none =>
    simp only [pickClosest]
    rcases List.exists_cons_of_ne_nil hne with ⟨b, t, hbt⟩
    rw [hbt]
    simp

theorem pickClosest_mem {cands2 : List (String × Bus)} {la lo : Option ℚ}
    {lbl : String} (h : pickClosest cands2 la lo = some lbl) :
    ∃ p ∈ cands2, p.1 = lbl := by
  match la, lo with
  | some a, some o =>
    simp only [pickClosest, Option.map_eq_some'] at h
    rcases h with ⟨p, hp, he⟩
    exact ⟨p, List.get?_mem hp, he⟩
  | none, _ =>
    simp only [pickClosest, Option.map_eq_some'] at h
    rcases h with ⟨p, hp, he⟩
    rcases List.head?_eq_some_iff.mp hp with ⟨ys, hys⟩
    exact ⟨p, by rw [hys]; exact List.mem_cons_self p ys, he⟩
  | some _, none =>
    simp only [pickClosest, Option.map_eq_some'] at h
    rcases h with ⟨p, hp, he⟩
    rcases List.head?_eq_some_iff.mp hp with ⟨ys, hys⟩
    exact ⟨p, by rw [hys]; exact List.mem_cons_self p ys, he⟩

theorem closest_bus_eq_ite (n : Network) (c : String) (la lo : Option ℚ)
    (sub : Option String) :
    closest_bus n c la lo sub =
      if (countryCands n c).isEmpty then none
      else pickClosest (applySubstring (countryCands n c) sub) la lo := rfl

theorem closest_bus_eq_none_iff (n : Network) (c : String) (la lo : Option ℚ)
    (sub : Option String) :
    closest_bus n c la lo sub = none ↔ countryCands n c = [] := by
  rw [closest_bus_eq_ite]
  constructor
  · intro h
    by_contra hc
    rw [if_neg (by rw [Bool.not_eq_true, List.isEmpty_eq_false]; exact hc)]
      at h
    have := pickClosest_isSome (applySubstring_ne_nil hc sub) la lo
    rw [h] at this
    cases this
  · intro h
    rw [if_pos (by rw [h]; rfl)]

theorem closest_bus_mem {n : Network} {c : String} {la lo : Option ℚ}
    {sub : Option String} {lbl : String}
    (h : closest_bus n c la lo sub = some lbl) :
    ∃ p ∈ applySubstring (countryCands n c) sub, p.1 = lbl := by
  rw [closest_bus_eq_ite] at h
  by_cases hc : (countryCands n c).isEmpty
  · rw [if_pos hc] at h; cases h
  · rw [if_neg hc] at h
    exact pickClosest_mem h

theorem closest_bus_mem_buses {n : Network} {c : String} {la lo : Option ℚ}
    {sub : Option String} {lbl : String}
    (h : closest_bus n c la lo sub = some lbl) :
    ∃ p ∈ n.buses, p.1 = lbl := by
  rcases closest_bus_mem h with ⟨p, hp, he⟩
  refine ⟨p, ?_, he⟩
  have h1 := applySubstring_subset (countryCands n c) sub hp
  exact List.filter_subset' n.buses h1

/-! ### Claim theorems -/

/-- C4: for every network and every configuration in which the `enable` flag
is false or absent (its default is false), `add_green_ammonia` returns without
mutating the network at all and raises nothing. -/
theorem add_green_ammonia_disabled_noop {σ κ : Type} (n : Network) (s : σ)
    (cfg : Config) (k : κ)
    (h : (_get_cfg cfg).enable.getD false = false) :
    add_green_ammonia n s cfg k = (n, none) := by
  simp [add_green_ammonia, h]

theorem add_green_ammonia_disabled_noop_witness :
    (_get_cfg { custom := none }).enable.getD false = false ∧
    add_green_ammonia demoNet (0 : ℕ) { custom := none } (0 : ℕ) =
      (demoNet, none) :=
  ⟨by decide,
   add_green_ammonia_disabled_noop demoNet 0 { custom := none } 0 (by decide)⟩

/-- C8: `_get_cfg` extracts the sub-mapping at the fixed nested path
`custom.green_ammonia`, returns the empty mapping whenever any intermediate
key is absent, and (being a total function) never fails. -/
theorem get_cfg_nested_default (cfg : Config) :
    (cfg.custom = none → _get_cfg cfg = emptyGA) ∧
    (∀ cu, cfg.custom = some cu → cu.green_ammonia = none →
      _get_cfg cfg = emptyGA) ∧
    (∀ cu g, cfg.custom = some cu → cu.green_ammonia = some g →
      _get_cfg cfg = g) := by
  refine ⟨fun h => ?_, fun cu h1 h2 => ?_, fun cu g h1 h2 => ?_⟩
  · simp [_get_cfg, h, emptyCustom, emptyGA]
  · simp [_get_cfg, h1, h2, emptyGA]
  · simp [_get_cfg, h1, h2]

theorem get_cfg_nested_default_witness :
    Config.custom { custom := none } = none ∧
    _get_cfg { custom := none } = emptyGA :=
  ⟨rfl, (get_cfg_nested_default { custom := none }).1 rfl⟩

/-- C9: the result of `add_green_ammonia` does not depend on the `snapshots`
argument or on the extra keyword arguments, at any types for those
arguments. -/
theorem add_green_ammonia_ignores_snapshots {σ₁ σ₂ κ₁ κ₂ : Type}
    (n : Network) (cfg : Config) (s1 : σ₁) (s2 : σ₂) (k1 : κ₁) (k2 : κ₂) :
    add_green_ammonia n s1 cfg k1 = add_green_ammonia n s2 cfg k2 := rfl

/-- C10: when latitude or longitude is absent (including exactly one of the
two), `_closest_bus` returns the first candidate of the filtered candidate
set in its natural order. -/
theorem closest_bus_missing_coordinate (n : Network) (country : String)
    (lat lon : Option ℚ) (sub : Option String)
    (hc : countryCands n country ≠ [])
    (h : lat = none ∨ lon = none) :
    ∃ b rest, applySubstring (countryCands n country) sub = b :: rest ∧
      closest_bus n country lat lon sub = some b.1 := by
  rcases List.exists_cons_of_ne_nil (applySubstring_ne_nil hc sub) with
    ⟨b, rest, hbr⟩
  refine ⟨b, rest, hbr, ?_⟩
  rw [closest_bus_eq_ite,
    if_neg (by rw [Bool.not_eq_true, List.isEmpty_eq_false]; exact hc)]
  rcases h with h | h
  · subst h
    cases lon <;> simp [pickClosest, hbr]
  · subst h
    cases lat <;> simp [pickClosest, hbr]

theorem closest_bus_missing_coordinate_witness :
    countryCands triNet "ES" ≠ [] ∧
    ((some (1 : ℚ) = none) ∨ ((none : Option ℚ) = none)) ∧
    (∃ b rest, applySubstring (countryCands triNet "ES") none = b :: rest ∧
      closest_bus triNet "ES" (some 1) none none = some b.1) :=
  ⟨by decide, Or.inr rfl,
   closest_bus_missing_coordinate triNet "ES" (some 1) none none (by decide)
     (Or.inr rfl)⟩

/-- First-minimum property of `argminQ` over a mapped list: the selected
element attains the minimum of `f`, and every earlier element is strictly
larger. -/
theorem argminQ_first_min {l : List (String × Bus)} (f : (String × Bus) → ℚ)
    (hl : l ≠ []) :
    ∃ p, l.get? (argminQ (l.map f)) = some p ∧
      (∀ j q, l.get? j = some q → f p ≤ f q) ∧
      (∀ j q, j < argminQ (l.map f) → l.get? j = some q → f p < f q) := by
  have hmne : l.map f ≠ [] := by simpa using hl
  have hlen : argminQ (l.map f) < (l.map f).length := argminQ_lt_length hmne
  have hlen2 : argminQ (l.map f) < l.length := by simpa using hlen
  have hfp : f (l[argminQ (l.map f)]) = minQ (l.map f) := by
    have h1 := getElem_argminQ hmne hlen
    rw [List.getElem_map] at h1
    exact h1
  refine ⟨l[argminQ (l.map f)], ?_, ?_, ?_⟩
  · rw [List.get?_eq_getElem?, List.getElem?_eq_getElem hlen2]
  · intro j q hq
    rw [hfp]
    exact minQ_le (List.mem_map_of_mem f (List.get?_mem hq))
  · intro j q hj hq
    have hjlen : j < (l.map f).length := Nat.lt_trans hj hlen
    have hj2 : j < l.length := by simpa using hjlen
    have hjq : (l.map f)[j] = f q := by
      rw [List.getElem_map]
      rw [List.get?_eq_getElem?, List.getElem?_eq_getElem hj2] at hq
      rw [Option.some.inj hq]
    have hne : ((l.map f)[j] == minQ (l.map f)) = false := by
      have := @List.not_of_lt_findIdx _ (fun r => r == minQ (l.map f))
        (l.map f) j hj
      simpa using this
    have hlt : minQ (l.map f) < (l.map f)[j] :=
      lt_of_le_of_ne (minQ_le (List.getElem_mem hjlen))
        (by intro he; rw [← he] at hne; simp at hne)
    rw [hfp, ← hjq]
    exact hlt

/-- C2: with both coordinates supplied and a non-empty candidate set,
`_closest_bus` returns the label of the candidate whose (squared) Euclidean
distance in latitude/longitude space to the target is minimal, ties broken
in favour of the first minimum in the candidate set's natural order. -/
theorem closest_bus_nearest (n : Network) (country : String) (la lo : ℚ)
    (sub : Option String) (hc : countryCands n country ≠ []) :
    ∃ i p, (applySubstring (countryCands n country) sub).get? i = some p ∧
      closest_bus n country (some la) (some lo) sub = some p.1 ∧
      (∀ j q, (applySubstring (countryCands n country) sub).get? j = some q →
        dist2 p.2 la lo ≤ dist2 q.2 la lo) ∧
      (∀ j q, j < i →
        (applySubstring (countryCands n country) sub).get? j = some q →
        dist2 p.2 la lo < dist2 q.2 la lo) := by
  have hne2 : applySubstring (countryCands n country) sub ≠ [] :=
    applySubstring_ne_nil hc sub
  rcases argminQ_first_min (fun b => dist2 b.2 la lo) hne2 with
    ⟨p, hp, hmin, hstrict⟩
  refine ⟨argminQ ((applySubstring (countryCands n country) sub).map
    (fun b => dist2 b.2 la lo)), p, hp, ?_, hmin, hstrict⟩
  rw [closest_bus_eq_ite,
    if_neg (by rw [Bool.not_eq_true, List.isEmpty_eq_false]; exact hc)]
  simp only [pickClosest]
  rw [hp]
  rfl

section RatEvalA

attribute [local semireducible] Rat.mul Rat.add Rat.sub Rat.inv

theorem closest_bus_nearest_witness :
    countryCands triNet "ES" ≠ [] ∧
    (∃ i p, (applySubstring (countryCands triNet "ES") none).get? i = some p ∧
      closest_bus triNet "ES" (some (9/10)) (some (9/10)) none = some p.1 ∧
      (∀ j q, (applySubstring (countryCands triNet "ES") none).get? j =
          some q → dist2 p.2 (9/10) (9/10) ≤ dist2 q.2 (9/10) (9/10)) ∧
      (∀ j q, j < i →
        (applySubstring (countryCands triNet "ES") none).get? j = some q →
        dist2 p.2 (9/10) (9/10) < dist2 q.2 (9/10) (9/10))) ∧
    closest_bus triNet "ES" (some (9/10)) (some (9/10)) none = some "bus11" :=
  ⟨by decide, closest_bus_nearest triNet "ES" (9/10) (9/10) none (by decide),
   by decide⟩

end RatEvalA

/-- Unfolding equation for `add_green_ammonia` in terms of the enable gate,
the base-bus resolution, and `inject_at`. -/
theorem add_green_ammonia_eq {σ κ : Type} (n : Network) (s : σ) (cfg : Config)
    (k : κ) :
    add_green_ammonia n s cfg k =
      if (_get_cfg cfg).enable.getD false then
        match closest_bus n ((_get_cfg cfg).country_code.getD "ES")
            ((_get_cfg cfg).location.getD emptyLocation).latitude
            ((_get_cfg cfg).location.getD emptyLocation).longitude
            ((_get_cfg cfg).location.getD emptyLocation).bus_substring with
        | none => (n, some GAErr.valueError)
        | some base_bus => inject_at n (_get_cfg cfg) base_bus
      else (n, none) := by
  simp only [add_green_ammonia]
  by_cases h : (_get_cfg cfg).enable.getD false
  · simp [h]
  · simp [h]

/-- `inject_core` never raises when the base-bus label resolves in the bus
collection: the `keyError` arm of the embedding is unreachable. -/
theorem inject_core_snd_eq_none (n : Network) (ga : GACfg)
    (base cst cel ccg : String) (bRec : Bus)
    (hb : lookupKey n.buses base = some bRec) :
    (inject_core n ga base cst cel ccg).2 = none := by
  simp only [inject_core]
  have hb3 : lookupKey (ensure_carrier (ensure_carrier (ensure_carrier n cst)
      cel) ccg).buses base = some bRec := by
    rw [ensure_carrier_buses, ensure_carrier_buses, ensure_carrier_buses]
    exact hb
  simp only [add_bus, hb3]
  split
  · next heq => split at heq <;> simp at heq
  · rfl

/-- `inject_at` never raises when the base-bus label resolves. -/
theorem inject_at_snd_eq_none (n : Network) (ga : GACfg) (base : String)
    (bRec : Bus) (hb : lookupKey n.buses base = some bRec) :
    (inject_at n ga base).2 = none :=
  inject_core_snd_eq_none n ga base _ _ _ bRec hb

/-- C6: when a techno-economic parameter key is absent from its component
configuration, the created component uses exactly the enumerated default:
electrolyser link efficiency 6/10, capital cost 7.5e5, marginal cost 1/2,
lifetime 20, p_nom_max infinity; store e_cyclic true, standing loss 0,
capital cost 1.5e5, e_nom_max infinity; reverse (CCGT) link efficiency 11/20,
capital cost 9e5, marginal cost 5/2, lifetime 25, p_nom_max infinity. -/
theorem default_parameters (n : Network) (base nh3 carrier : String)
    (cfg : CompCfg)
    (he : hasKey n.links (base ++ "-NH3-electrolyser") = false)
    (hs : hasKey n.stores (nh3 ++ "-store") = false)
    (hc : hasKey n.links (base ++ "-NH3-CCGT") = false) :
    (∃ l : Link,
      (add_electrolyser n base nh3 cfg carrier).links =
        n.links ++ [(base ++ "-NH3-electrolyser", l)] ∧
      (cfg.efficiency = none → l.efficiency = 6/10) ∧
      (cfg.capital_cost = none → l.capital_cost = 750000) ∧
      (cfg.marginal_cost = none → l.marginal_cost = 1/2) ∧
      (cfg.lifetime = none → l.lifetime = 20) ∧
      (cfg.p_nom_max = none → l.p_nom_max = QInf.inf)) ∧
    (∃ st : Store,
      (add_storage n nh3 cfg carrier).stores =
        n.stores ++ [(nh3 ++ "-store", st)] ∧
      (cfg.e_cyclic = none → st.e_cyclic = true) ∧
      (cfg.standing_loss = none → st.standing_loss = 0) ∧
      (cfg.capital_cost = none → st.capital_cost = 150000) ∧
      (cfg.e_nom_max = none → st.e_nom_max = QInf.inf)) ∧
    (∃ l : Link,
      (add_ccgt n base nh3 cfg carrier).links =
        n.links ++ [(base ++ "-NH3-CCGT", l)] ∧
      (cfg.efficiency = none → l.efficiency = 11/20) ∧
      (cfg.capital_cost = none → l.capital_cost = 900000) ∧
      (cfg.marginal_cost = none → l.marginal_cost = 5/2) ∧
      (cfg.lifetime = none → l.lifetime = 25) ∧
      (cfg.p_nom_max = none → l.p_nom_max = QInf.inf)) := by
  refine ⟨?_, ?_, ?_⟩
  · simp only [add_electrolyser, he, Bool.false_eq_true, if_false]
    exact ⟨_, rfl, fun h => by simp [mkElectrolyserLink, h],
      fun h => by simp [mkElectrolyserLink, h],
      fun h => by simp [mkElectrolyserLink, h],
      fun h => by simp [mkElectrolyserLink, h],
      fun h => by simp [mkElectrolyserLink, h]⟩
  · simp only [add_storage, hs, Bool.false_eq_true, if_false]
    exact ⟨_, rfl, fun h => by simp [mkStoreRec, h],
      fun h => by simp [mkStoreRec, h],
      fun h => by simp [mkStoreRec, h],
      fun h => by simp [mkStoreRec, h]⟩
  · simp only [add_ccgt, hc, Bool.false_eq_true, if_false]
    exact ⟨_, rfl, fun h => by simp [mkCcgtLink, h],
      fun h => by simp [mkCcgtLink, h],
      fun h => by simp [mkCcgtLink, h],
      fun h => by simp [mkCcgtLink, h],
      fun h => by simp [mkCcgtLink, h]⟩

section RatEvalB

attribute [local semireducible] Rat.mul Rat.add Rat.sub Rat.inv

theorem default_parameters_witness :
    hasKey demoNet.links ("b1" ++ "-NH3-electrolyser") = false ∧
    CompCfg.efficiency emptyComp = none ∧
    (∃ l : Link,
      (add_electrolyser demoNet "b1" "b1-NH3" emptyComp
          "NH3-electrolyser").links =
        demoNet.links ++ [("b1" ++ "-NH3-electrolyser", l)] ∧
      l.efficiency = 6/10 ∧ l.capital_cost = 750000) ∧
    (∃ l : Link,
      lookupKey (add_green_ammonia demoNet (0 : ℕ) enableCfg (0 : ℕ)).1.links
        "b1-NH3-electrolyser" = some l ∧
      l.efficiency = 6/10 ∧ l.capital_cost = 750000) := by
  refine ⟨by decide, rfl, ?_, ?_⟩
  · rcases (default_parameters demoNet "b1" "b1-NH3" "NH3-electrolyser"
        emptyComp (by decide) (by decide) (by decide)).1 with
      ⟨l, hl, h1, h2, h3, h4, h5⟩
    exact ⟨l, hl, h1 rfl, h2 rfl⟩
  · exact ⟨Link.mk "b1" "b1-NH3" "NH3-electrolyser" (3/5) 750000 (1/2) 20
      true QInf.inf, by decide, by decide, by decide⟩

end RatEvalB

/-- `_add_bus` when the base bus exists and the `-NH3` label is fresh. -/
theorem add_bus_eq_new (n : Network) (base carrier : String) (bRec : Bus)
    (hb : lookupKey n.buses base = some bRec)
    (hfb : hasKey n.buses (base ++ "-NH3") = false) :
    add_bus n base carrier =
      some ({ n with buses := n.buses ++
        [(base ++ "-NH3", mkNh3Bus bRec carrier)] }, base ++ "-NH3") := by
  simp only [add_bus, hb, hfb, Bool.false_eq_true, if_false]

/-- `_add_bus` when the base bus exists and the `-NH3` label already does. -/
theorem add_bus_eq_exists (n : Network) (base carrier : String) (bRec : Bus)
    (hb : lookupKey n.buses base = some bRec)
    (hk : hasKey n.buses (base ++ "-NH3") = true) :
    add_bus n base carrier = some (n, base ++ "-NH3") := by
  simp only [add_bus, hb, hk, if_true]

theorem add_electrolyser_links_new (n : Network) (b nb : String)
    (cfg : CompCfg) (c : String)
    (hf : hasKey n.links (b ++ "-NH3-electrolyser") = false) :
    (add_electrolyser n b nb cfg c).links =
      n.links ++ [(b ++ "-NH3-electrolyser", mkElectrolyserLink b nb cfg c)]
    := by
  simp only [add_electrolyser, hf, Bool.false_eq_true, if_false]

theorem add_storage_stores_new (n : Network) (nb : String) (cfg : CompCfg)
    (c : String) (hf : hasKey n.stores (nb ++ "-store") = false) :
    (add_storage n nb cfg c).stores =
      n.stores ++ [(nb ++ "-store", mkStoreRec nb cfg c)] := by
  simp only [add_storage, hf, Bool.false_eq_true, if_false]

theorem add_ccgt_links_new (n : Network) (b nb : String) (cfg : CompCfg)
    (c : String) (hf : hasKey n.links (b ++ "-NH3-CCGT") = false) :
    (add_ccgt n b nb cfg c).links =
      n.links ++ [(b ++ "-NH3-CCGT", mkCcgtLink b nb cfg c)] := by
  simp only [add_ccgt, hf, Bool.false_eq_true, if_false]

theorem elec_ccgt_label_ne (b : String) :
    (b ++ "-NH3-electrolyser" == b ++ "-NH3-CCGT") = false := by
  rw [beq_eq_false_iff_ne]
  intro h
  have h2 := string_append_left_cancel h
  exact absurd h2 (by decide)

/-- The result of the electrolyser/storage/ccgt chain on any network whose
link labels are fresh: links gain exactly the two new link rows. -/
theorem chain_links (n4 : Network) (base nh3 : String)
    (ecfg scfg ccfg : CompCfg) (cel cst ccg : String)
    (hfe : hasKey n4.links (base ++ "-NH3-electrolyser") = false)
    (hfc : hasKey n4.links (base ++ "-NH3-CCGT") = false) :
    (add_ccgt (add_storage (add_electrolyser n4 base nh3 ecfg cel) nh3 scfg
        cst) base nh3 ccfg ccg).links =
      (n4.links ++ [(base ++ "-NH3-electrolyser",
        mkElectrolyserLink base nh3 ecfg cel)]) ++
        [(base ++ "-NH3-CCGT", mkCcgtLink base nh3 ccfg ccg)] := by
  have h6 : (add_storage (add_electrolyser n4 base nh3 ecfg cel) nh3 scfg
      cst).links = n4.links ++ [(base ++ "-NH3-electrolyser",
        mkElectrolyserLink base nh3 ecfg cel)] := by
    rw [add_storage_links, add_electrolyser_links_new n4 base nh3 ecfg cel hfe]
  have hk6 : hasKey (add_storage (add_electrolyser n4 base nh3 ecfg cel) nh3
      scfg cst).links (base ++ "-NH3-CCGT") = false := by
    rw [h6, hasKey_append, hfc]
    show (false || ((base ++ "-NH3-electrolyser" == base ++ "-NH3-CCGT")
      || false)) = false
    rw [elec_ccgt_label_ne]
    rfl
  rw [add_ccgt_links_new _ base nh3 ccfg ccg hk6, h6]

/-- The result of the chain on any network whose store label is fresh: stores
gain exactly the new store row. -/
theorem chain_stores (n4 : Network) (base nh3 : String)
    (ecfg scfg ccfg : CompCfg) (cel cst ccg : String)
    (hfs : hasKey n4.stores (nh3 ++ "-store") = false) :
    (add_ccgt (add_storage (add_electrolyser n4 base nh3 ecfg cel) nh3 scfg
        cst) base nh3 ccfg ccg).stores =
      n4.stores ++ [(nh3 ++ "-store", mkStoreRec nh3 scfg cst)] := by
  rw [add_ccgt_stores]
  rw [add_storage_stores_new _ nh3 scfg cst
    (by rw [add_electrolyser_stores]; exact hfs)]
  rw [add_electrolyser_stores]

theorem chain_buses (n4 : Network) (base nh3 : String)
    (ecfg scfg ccfg : CompCfg) (cel cst ccg : String) :
    (add_ccgt (add_storage (add_electrolyser n4 base nh3 ecfg cel) nh3 scfg
        cst) base nh3 ccfg ccg).buses = n4.buses := by
  rw [add_ccgt_buses, add_storage_buses, add_electrolyser_buses]

theorem chain_carriers (n4 : Network) (base nh3 : String)
    (ecfg scfg ccfg : CompCfg) (cel cst ccg : String) :
    (add_ccgt (add_storage (add_electrolyser n4 base nh3 ecfg cel) nh3 scfg
        cst) base nh3 ccfg ccg).carriers = n4.carriers := by
  rw [add_ccgt_carriers, add_storage_carriers, add_electrolyser_carriers]

/-- Unfolding equation for `inject_core` once `add_bus` has succeeded. -/
theorem inject_core_eq_of_add_bus (n : Network) (ga : GACfg)
    (base cst cel ccg : String) (n4 : Network) (nh3 : String)
    (hab : add_bus (ensure_carrier (ensure_carrier (ensure_carrier n cst) cel)
        ccg) base cst = some (n4, nh3)) :
    inject_core n ga base cst cel ccg =
      (add_ccgt (add_storage (add_electrolyser n4 base nh3
          (ga.electrolyser.getD emptyComp) cel) nh3
          (ga.storage.getD emptyComp) cst) base nh3
          (ga.ccgt.getD emptyComp) ccg, none) := by
  simp only [inject_core, hab]

/-- `inject_core` on a network not containing the three component labels:
the links gain exactly the electrolyser and CCGT rows and the stores gain
exactly the store row, regardless of whether the `-NH3` bus pre-exists. -/
theorem inject_core_fresh (n : Network) (ga : GACfg)
    (base cst cel ccg : String) (bRec : Bus)
    (hb : lookupKey n.buses base = some bRec)
    (hfe : hasKey n.links (base ++ "-NH3-electrolyser") = false)
    (hfs : hasKey n.stores ((base ++ "-NH3") ++ "-store") = false)
    (hfc : hasKey n.links (base ++ "-NH3-CCGT") = false) :
    (inject_core n ga base cst cel ccg).1.links =
      (n.links ++ [(base ++ "-NH3-electrolyser", mkElectrolyserLink base
        (base ++ "-NH3") (ga.electrolyser.getD emptyComp) cel)]) ++
      [(base ++ "-NH3-CCGT", mkCcgtLink base (base ++ "-NH3")
        (ga.ccgt.getD emptyComp) ccg)] ∧
    (inject_core n ga base cst cel ccg).1.stores =
      n.stores ++ [((base ++ "-NH3") ++ "-store", mkStoreRec (base ++ "-NH3")
        (ga.storage.getD emptyComp) cst)] := by
  have hb3 : lookupKey (ensure_carrier (ensure_carrier (ensure_carrier n cst)
      cel) ccg).buses base = some bRec := by
    rw [ensure_carrier_buses, ensure_carrier_buses, ensure_carrier_buses]
    exact hb
  have hl3 : (ensure_carrier (ensure_carrier (ensure_carrier n cst) cel)
      ccg).links = n.links := by
    rw [ensure_carrier_links, ensure_carrier_links, ensure_carrier_links]
  have hs3 : (ensure_carrier (ensure_carrier (ensure_carrier n cst) cel)
      ccg).stores = n.stores := by
    rw [ensure_carrier_stores, ensure_carrier_stores, ensure_carrier_stores]
  by_cases hk : hasKey (ensure_carrier (ensure_carrier (ensure_carrier n cst)
      cel) ccg).buses (base ++ "-NH3") = true
  · rw [inject_core_eq_of_add_bus n ga base cst cel ccg _ _
      (add_bus_eq_exists _ base cst bRec hb3 hk)]
    constructor
    · rw [chain_links _ base _ _ _ _ cel cst ccg (by rw [hl3]; exact hfe)
        (by rw [hl3]; exact hfc), hl3]
    · rw [chain_stores _ base _ _ _ _ cel cst ccg (by rw [hs3]; exact hfs),
        hs3]
  · have hk2 : hasKey (ensure_carrier (ensure_carrier (ensure_carrier n cst)
        cel) ccg).buses (base ++ "-NH3") = false := by
      simpa using hk
    rw [inject_core_eq_of_add_bus n ga base cst cel ccg _ _
      (add_bus_eq_new _ base cst bRec hb3 hk2)]
    constructor
    · rw [chain_links _ base _ _ _ _ cel cst ccg
        (by show hasKey (ensure_carrier (ensure_carrier (ensure_carrier n
            cst) cel) ccg).links (base ++ "-NH3-electrolyser") = false
            rw [hl3]; exact hfe)
        (by show hasKey (ensure_carrier (ensure_carrier (ensure_carrier n
            cst) cel) ccg).links (base ++ "-NH3-CCGT") = false
            rw [hl3]; exact hfc)]
      show ((ensure_carrier (ensure_carrier (ensure_carrier n cst) cel)
        ccg).links ++ _) ++ _ = _
      rw [hl3]
    · rw [chain_stores _ base _ _ _ _ cel cst ccg
        (by show hasKey (ensure_carrier (ensure_carrier (ensure_carrier n
            cst) cel) ccg).stores ((base ++ "-NH3") ++ "-store") = false
            rw [hs3]; exact hfs)]
      show (ensure_carrier (ensure_carrier (ensure_carrier n cst) cel)
        ccg).stores ++ _ = _
      rw [hs3]

/-- A successful enabled run of `add_green_ammonia` factors through
`inject_at` at the resolved base bus. -/
theorem add_green_ammonia_success {σ κ : Type} (n n' : Network) (s : σ)
    (cfg : Config) (k : κ) (base : String)
    (hen : (_get_cfg cfg).enable.getD false = true)
    (hbase : closest_bus n ((_get_cfg cfg).country_code.getD "ES")
        ((_get_cfg cfg).location.getD emptyLocation).latitude
        ((_get_cfg cfg).location.getD emptyLocation).longitude
        ((_get_cfg cfg).location.getD emptyLocation).bus_substring =
      some base)
    (hrun : add_green_ammonia n s cfg k = (n', none)) :
    inject_at n (_get_cfg cfg) base = (n', none) := by
  rw [add_green_ammonia_eq, if_pos hen, hbase] at hrun
  exact hrun

/-- C7: after a successful enabled invocation on a network that did not
previously contain the injected components (and, as in any consistent pypsa
network, no pre-existing link or store references the not-yet-existing NH3
bus label), the NH3 bus has exactly one inbound link — the electrolyser from
the base bus — exactly one outbound link — the CCGT link to the base bus —
and exactly one attached store. -/
theorem injected_topology {σ κ : Type} (n n' : Network) (s : σ) (cfg : Config)
    (k : κ) (base : String)
    (hen : (_get_cfg cfg).enable.getD false = true)
    (hbase : closest_bus n ((_get_cfg cfg).country_code.getD "ES")
        ((_get_cfg cfg).location.getD emptyLocation).latitude
        ((_get_cfg cfg).location.getD emptyLocation).longitude
        ((_get_cfg cfg).location.getD emptyLocation).bus_substring =
      some base)
    (hrun : add_green_ammonia n s cfg k = (n', none))
    (hfe : hasKey n.links (base ++ "-NH3-electrolyser") = false)
    (hfs : hasKey n.stores ((base ++ "-NH3") ++ "-store") = false)
    (hfc : hasKey n.links (base ++ "-NH3-CCGT") = false)
    (hnl : ∀ p ∈ n.links, p.2.bus0 ≠ base ++ "-NH3" ∧
      p.2.bus1 ≠ base ++ "-NH3")
    (hns : ∀ p ∈ n.stores, p.2.bus ≠ base ++ "-NH3") :
    (∃ el : Link, n'.links.filter (fun p => p.2.bus1 == base ++ "-NH3") =
        [(base ++ "-NH3-electrolyser", el)] ∧ el.bus0 = base) ∧
    (∃ cc : Link, n'.links.filter (fun p => p.2.bus0 == base ++ "-NH3") =
        [(base ++ "-NH3-CCGT", cc)] ∧ cc.bus1 = base) ∧
    (∃ st : Store, n'.stores.filter (fun p => p.2.bus == base ++ "-NH3") =
        [((base ++ "-NH3") ++ "-store", st)]) := by
  have hia := add_green_ammonia_success n n' s cfg k base hen hbase hrun
  rcases closest_bus_mem_buses hbase with ⟨p, hp, hp1⟩
  rcases Option.isSome_iff_exists.mp (lookupKey_isSome_of_mem hp) with
    ⟨bRec, hbRec⟩
  rw [hp1] at hbRec
  have hfresh := inject_core_fresh n (_get_cfg cfg) base
    (((_get_cfg cfg).carriers.getD emptyCarriers).ammonia.getD "NH3")
    (((_get_cfg cfg).carriers.getD emptyCarriers).to_store.getD
      "NH3-electrolyser")
    (((_get_cfg cfg).carriers.getD emptyCarriers).to_power.getD "NH3-power")
    bRec hbRec hfe hfs hfc
  have hfst : (inject_at n (_get_cfg cfg) base).1 = n' := by rw [hia]
  have hl : n'.links =
      (n.links ++ [(base ++ "-NH3-electrolyser", mkElectrolyserLink base
        (base ++ "-NH3") ((_get_cfg cfg).electrolyser.getD emptyComp)
        (((_get_cfg cfg).carriers.getD emptyCarriers).to_store.getD
          "NH3-electrolyser"))]) ++
      [(base ++ "-NH3-CCGT", mkCcgtLink base (base ++ "-NH3")
        ((_get_cfg cfg).ccgt.getD emptyComp)
        (((_get_cfg cfg).carriers.getD emptyCarriers).to_power.getD
          "NH3-power"))] := by
    rw [← hfst]
    exact hfresh.1
  have hs : n'.stores =
      n.stores ++ [((base ++ "-NH3") ++ "-store", mkStoreRec (base ++ "-NH3")
        ((_get_cfg cfg).storage.getD emptyComp)
        (((_get_cfg cfg).carriers.getD emptyCarriers).ammonia.getD "NH3"))]
      := by
    rw [← hfst]
    exact hfresh.2
  have hbne : base ≠ base ++ "-NH3" :=
    (string_append_ne_self base "-NH3" (by decide)).symm
  refine ⟨⟨mkElectrolyserLink base (base ++ "-NH3")
      ((_get_cfg cfg).electrolyser.getD emptyComp)
      (((_get_cfg cfg).carriers.getD emptyCarriers).to_store.getD
        "NH3-electrolyser"), ?_, rfl⟩,
    ⟨mkCcgtLink base (base ++ "-NH3") ((_get_cfg cfg).ccgt.getD emptyComp)
      (((_get_cfg cfg).carriers.getD emptyCarriers).to_power.getD
        "NH3-power"), ?_, rfl⟩,
    ⟨mkStoreRec (base ++ "-NH3") ((_get_cfg cfg).storage.getD emptyComp)
      (((_get_cfg cfg).carriers.getD emptyCarriers).ammonia.getD "NH3"),
      ?_⟩⟩
  · rw [hl, List.filter_append, List.filter_append,
      List.filter_eq_nil_iff.mpr (fun a ha => by
        simp only [beq_iff_eq]
        exact (hnl a ha).2)]
    simp [mkElectrolyserLink, mkCcgtLink, hbne]
  · rw [hl, List.filter_append, List.filter_append,
      List.filter_eq_nil_iff.mpr (fun a ha => by
        simp only [beq_iff_eq]
        exact (hnl a ha).1)]
    simp [mkElectrolyserLink, mkCcgtLink, hbne]
  · rw [hs, List.filter_append,
      List.filter_eq_nil_iff.mpr (fun a ha => by
        simp only [beq_iff_eq]
        exact hns a ha)]
    simp [mkStoreRec]

section RatEvalC

attribute [local semireducible] Rat.mul Rat.add Rat.sub Rat.inv

theorem injected_topology_witness :
    add_green_ammonia demoNet (0 : ℕ) enableCfg (0 : ℕ) =
      ((add_green_ammonia demoNet (0 : ℕ) enableCfg (0 : ℕ)).1, none) ∧
    ((∃ el : Link,
        (add_green_ammonia demoNet (0 : ℕ) enableCfg (0 : ℕ)).1.links.filter
          (fun p => p.2.bus1 == "b1" ++ "-NH3") =
          [("b1" ++ "-NH3-electrolyser", el)] ∧ el.bus0 = "b1") ∧
     (∃ cc : Link,
        (add_green_ammonia demoNet (0 : ℕ) enableCfg (0 : ℕ)).1.links.filter
          (fun p => p.2.bus0 == "b1" ++ "-NH3") =
          [("b1" ++ "-NH3-CCGT", cc)] ∧ cc.bus1 = "b1") ∧
     (∃ st : Store,
        (add_green_ammonia demoNet (0 : ℕ) enableCfg (0 : ℕ)).1.stores.filter
          (fun p => p.2.bus == "b1" ++ "-NH3") =
          [(("b1" ++ "-NH3") ++ "-store", st)])) :=
  ⟨by decide,
   injected_topology demoNet
     ((add_green_ammonia demoNet (0 : ℕ) enableCfg (0 : ℕ)).1) 0 enableCfg 0
     "b1" (by decide) (by decide) (by decide) (by decide) (by decide)
     (by decide)
     (fun p hp => absurd hp (List.not_mem_nil p))
     (fun p hp => absurd hp (List.not_mem_nil p))⟩

end RatEvalC

/-- `dist2` depends only on the coordinates. -/
theorem dist2_congr {b1 b2 : Bus} (hx : b1.x = b2.x) (hy : b1.y = b2.y)
    (la lo : ℚ) : dist2 b1 la lo = dist2 b2 la lo := by
  unfold dist2
  rw [hx, hy]

/-- When both coordinates are supplied, the selected candidate attains the
minimum of the squared distances. -/
theorem pickClosest_coords_min {W : List (String × Bus)} {a o : ℚ}
    {base : String} (h : pickClosest W (some a) (some o) = some base) :
    ∃ w ∈ W, w.1 = base ∧
      dist2 w.2 a o = minQ (W.map (fun b => dist2 b.2 a o)) := by
  simp only [pickClosest, Option.map_eq_some'] at h
  rcases h with ⟨w, hw, hw1⟩
  have hmem := List.get?_mem hw
  have hWne : W ≠ [] := List.ne_nil_of_mem hmem
  have hmne : W.map (fun b => dist2 b.2 a o) ≠ [] := by simpa using hWne
  have hlenm : argminQ (W.map (fun b => dist2 b.2 a o)) <
      (W.map (fun b => dist2 b.2 a o)).length := argminQ_lt_length hmne
  have hlen : argminQ (W.map (fun b => dist2 b.2 a o)) < W.length := by
    simpa using hlenm
  refine ⟨w, hmem, hw1, ?_⟩
  have hget : W[argminQ (W.map (fun b => dist2 b.2 a o))] = w := by
    rw [List.get?_eq_getElem?, List.getElem?_eq_getElem hlen] at hw
    exact Option.some.inj hw
  have h1 := getElem_argminQ hmne hlenm
  rw [List.getElem_map, hget] at h1
  exact h1

/-- Appending a candidate whose distance is not below the minimum does not
change the selection (first-minimum tie-breaking keeps the earlier one). -/
theorem pickClosest_append (W : List (String × Bus)) (x : String × Bus)
    (la lo : Option ℚ) (hW : W ≠ [])
    (hdist : ∀ a o : ℚ, la = some a → lo = some o →
      minQ (W.map (fun b => dist2 b.2 a o)) ≤ dist2 x.2 a o) :
    pickClosest (W ++ [x]) la lo = pickClosest W la lo := by
  match la, lo with
  | some a, some o =>
    simp only [pickClosest]
    have hmne : W.map (fun b => dist2 b.2 a o) ≠ [] := by simpa using hW
    have hle := hdist a o rfl rfl
    have hmap : (W ++ [x]).map (fun b => dist2 b.2 a o) =
        W.map (fun b => dist2 b.2 a o) ++ [dist2 x.2 a o] := by simp
    rw [hmap, argminQ_append_of_min_le hmne hle]
    have hlt : argminQ (W.map (fun b => dist2 b.2 a o)) < W.length := by
      have := argminQ_lt_length hmne
      simpa using this
    rw [List.get?_eq_getElem?, List.get?_eq_getElem?,
      List.getElem?_append_left hlt]
  | none, _ =>
    simp only [pickClosest]
    rcases List.exists_cons_of_ne_nil hW with ⟨b, t, hbt⟩
    rw [hbt]
    rfl
  | some _, none =>
    simp only [pickClosest]
    rcases List.exists_cons_of_ne_nil hW with ⟨b, t, hbt⟩
    rw [hbt]
    rfl

/-- Appending a bus with the same coordinates as the already-selected base
bus (in particular the injected `-NH3` bus) does not change the resolver's
choice, provided bus labels are unique and a supplied substring filter
already matched some candidate. -/
theorem closest_bus_append (n : Network) (c : String) (la lo : Option ℚ)
    (sub : Option String) (base newLbl : String) (bRec newB : Bus)
    (hnd : (n.buses.map Prod.fst).Nodup)
    (hsafe : subSafe (countryCands n c) sub)
    (hbase : closest_bus n c la lo sub = some base)
    (hb : lookupKey n.buses base = some bRec)
    (hx : newB.x = bRec.x) (hy : newB.y = bRec.y) :
    closest_bus { n with buses := n.buses ++ [(newLbl, newB)] } c la lo sub =
      some base := by
  have hcands : countryCands { n with buses := n.buses ++ [(newLbl, newB)] }
      c = countryCands n c ++ (if newB.country == c then [(newLbl, newB)]
        else []) := by
    unfold countryCands
    simp only [List.filter_append]
    congr 1
    by_cases hcon : (newB.country == c) = true
    · simp [hcon]
    · simp [hcon]
  have hc0 : countryCands n c ≠ [] := by
    intro h
    rw [(closest_bus_eq_none_iff n c la lo sub).mpr h] at hbase
    cases hbase
  rw [closest_bus_eq_ite] at hbase
  rw [if_neg (by rw [Bool.not_eq_true, List.isEmpty_eq_false]; exact hc0)]
    at hbase
  rw [closest_bus_eq_ite, hcands]
  by_cases hcon : (newB.country == c) = true
  · rw [if_pos hcon]
    rw [if_neg (by
      rw [Bool.not_eq_true, List.isEmpty_eq_false]
      intro h
      exact hc0 (List.append_eq_nil.mp h).1)]
    rcases applySubstring_append (newLbl, newB) hsafe with ⟨E, hE, happ⟩
    rw [happ]
    rcases hE with hE | hE
    · rw [hE, List.append_nil]
      exact hbase
    · rw [hE]
      rw [pickClosest_append (applySubstring (countryCands n c) sub)
        (newLbl, newB) la lo (applySubstring_ne_nil hc0 sub) ?_]
      · exact hbase
      · intro a o hla hlo
        rw [hla, hlo] at hbase
        rcases pickClosest_coords_min hbase with ⟨w, hw, hw1, hwd⟩
        have hwmem : w ∈ n.buses :=
          List.filter_subset' n.buses
            (applySubstring_subset (countryCands n c) sub hw)
        have hlw : lookupKey n.buses w.1 = some w.2 :=
          lookupKey_eq_of_nodup hnd hwmem
        rw [hw1, hb] at hlw
        have hwrec : bRec = w.2 := Option.some.inj hlw
        have hdx : dist2 newB a o = dist2 w.2 a o := by
          rw [@dist2_congr newB bRec hx hy a o, hwrec]
        rw [hdx, hwd]
  · rw [if_neg hcon, List.append_nil]
    rw [if_neg (by rw [Bool.not_eq_true, List.isEmpty_eq_false]; exact hc0)]
    exact hbase

/-- After one successful run of `inject_core`, all four component labels and
all three carriers are present, and the bus collection gained at most the
`-NH3` bus (which copies the base bus's coordinates). -/
theorem inject_core_shape (n : Network) (ga : GACfg)
    (base cst cel ccg : String) (bRec : Bus)
    (hb : lookupKey n.buses base = some bRec) :
    ∃ n1, inject_core n ga base cst cel ccg = (n1, none) ∧
      (n1.buses = n.buses ∨
        n1.buses = n.buses ++ [(base ++ "-NH3", mkNh3Bus bRec cst)]) ∧
      hasKey n1.buses (base ++ "-NH3") = true ∧
      cst ∈ n1.carriers ∧ cel ∈ n1.carriers ∧ ccg ∈ n1.carriers ∧
      hasKey n1.links (base ++ "-NH3-electrolyser") = true ∧
      hasKey n1.stores ((base ++ "-NH3") ++ "-store") = true ∧
      hasKey n1.links (base ++ "-NH3-CCGT") = true := by
  have hb3 : lookupKey (ensure_carrier (ensure_carrier (ensure_carrier n cst)
      cel) ccg).buses base = some bRec := by
    rw [ensure_carrier_buses, ensure_carrier_buses, ensure_carrier_buses]
    exact hb
  have hbuses3 : (ensure_carrier (ensure_carrier (ensure_carrier n cst) cel)
      ccg).buses = n.buses := by
    rw [ensure_carrier_buses, ensure_carrier_buses, ensure_carrier_buses]
  have hm1 : cst ∈ (ensure_carrier (ensure_carrier (ensure_carrier n cst)
      cel) ccg).carriers :=
    mem_ensure_carrier_of_mem _ _ _ (mem_ensure_carrier_of_mem _ _ _
      (mem_ensure_carrier_self n cst))
  have hm2 : cel ∈ (ensure_carrier (ensure_carrier (ensure_carrier n cst)
      cel) ccg).carriers :=
    mem_ensure_carrier_of_mem _ _ _ (mem_ensure_carrier_self _ cel)
  have hm3 : ccg ∈ (ensure_carrier (ensure_carrier (ensure_carrier n cst)
      cel) ccg).carriers := mem_ensure_carrier_self _ ccg
  have hlinks3 : (ensure_carrier (ensure_carrier (ensure_carrier n cst) cel)
      ccg).links = n.links := by
    rw [ensure_carrier_links, ensure_carrier_links, ensure_carrier_links]
  by_cases hk : hasKey (ensure_carrier (ensure_carrier (ensure_carrier n cst)
      cel) ccg).buses (base ++ "-NH3") = true
  · rw [inject_core_eq_of_add_bus n ga base cst cel ccg _ _
      (add_bus_eq_exists _ base cst bRec hb3 hk)]
    refine ⟨_, rfl, ?_, ?_, ?_, ?_, ?_, ?_, ?_, ?_⟩
    · rw [chain_buses, hbuses3]
      exact Or.inl rfl
    · rw [chain_buses]
      exact hk
    · rw [chain_carriers]
      exact hm1
    · rw [chain_carriers]
      exact hm2
    · rw [chain_carriers]
      exact hm3
    · apply add_ccgt_hasKey_mono
      rw [add_storage_links]
      exact add_electrolyser_hasKey _ _ _ _ _
    · rw [add_ccgt_stores]
      exact add_storage_hasKey _ _ _ _
    · exact add_ccgt_hasKey _ _ _ _ _
  · have hk2 : hasKey (ensure_carrier (ensure_carrier (ensure_carrier n cst)
        cel) ccg).buses (base ++ "-NH3") = false := by
      simpa using hk
    rw [inject_core_eq_of_add_bus n ga base cst cel ccg _ _
      (add_bus_eq_new _ base cst bRec hb3 hk2)]
    refine ⟨_, rfl, ?_, ?_, ?_, ?_, ?_, ?_, ?_, ?_⟩
    · rw [chain_buses]
      show (ensure_carrier (ensure_carrier (ensure_carrier n cst) cel)
        ccg).buses ++ [(base ++ "-NH3", mkNh3Bus bRec cst)] = _ ∨ _ = _
      rw [hbuses3]
      exact Or.inr rfl
    · rw [chain_buses]
      show hasKey ((ensure_carrier (ensure_carrier (ensure_carrier n cst)
        cel) ccg).buses ++ [(base ++ "-NH3", mkNh3Bus bRec cst)])
        (base ++ "-NH3") = true
      rw [hasKey_append]
      have : hasKey [(base ++ "-NH3", mkNh3Bus bRec cst)] (base ++ "-NH3")
          = true := by simp [hasKey]
      rw [this, Bool.or_true]
    · rw [chain_carriers]
      exact hm1
    · rw [chain_carriers]
      exact hm2
    · rw [chain_carriers]
      exact hm3
    · apply add_ccgt_hasKey_mono
      rw [add_storage_links]
      exact add_electrolyser_hasKey _ _ _ _ _
    · rw [add_ccgt_stores]
      exact add_storage_hasKey _ _ _ _
    · exact add_ccgt_hasKey _ _ _ _ _

/-- On a network that already carries all the injected components and
carriers, `inject_core` is the identity. -/
theorem inject_core_idem (m : Network) (ga : GACfg)
    (base cst cel ccg : String) (bRec : Bus)
    (hbRec : lookupKey m.buses base = some bRec)
    (hbk : hasKey m.buses (base ++ "-NH3") = true)
    (hc1 : cst ∈ m.carriers) (hc2 : cel ∈ m.carriers) (hc3 : ccg ∈ m.carriers)
    (hel : hasKey m.links (base ++ "-NH3-electrolyser") = true)
    (hst : hasKey m.stores ((base ++ "-NH3") ++ "-store") = true)
    (hcc : hasKey m.links (base ++ "-NH3-CCGT") = true) :
    inject_core m ga base cst cel ccg = (m, none) := by
  have hens : ensure_carrier (ensure_carrier (ensure_carrier m cst) cel) ccg
      = m := by
    rw [ensure_carrier_of_mem m cst hc1, ensure_carrier_of_mem m cel hc2,
      ensure_carrier_of_mem m ccg hc3]
  have hab : add_bus (ensure_carrier (ensure_carrier (ensure_carrier m cst)
      cel) ccg) base cst = some (m, base ++ "-NH3") := by
    rw [hens]
    exact add_bus_eq_exists m base cst bRec hbRec hbk
  rw [inject_core_eq_of_add_bus m ga base cst cel ccg m (base ++ "-NH3") hab]
  rw [add_electrolyser_of_hasKey m base (base ++ "-NH3") _ cel hel]
  rw [add_storage_of_hasKey m (base ++ "-NH3") _ cst hst]
  rw [add_ccgt_of_hasKey m base (base ++ "-NH3") _ ccg hcc]

/-- `inject_at` is `inject_core` at the configured carrier names. -/
theorem inject_at_eq_core (m : Network) (ga : GACfg) (base : String) :
    inject_at m ga base = inject_core m ga base
      ((ga.carriers.getD emptyCarriers).ammonia.getD "NH3")
      ((ga.carriers.getD emptyCarriers).to_store.getD "NH3-electrolyser")
      ((ga.carriers.getD emptyCarriers).to_power.getD "NH3-power") := rfl

section RatEvalD

attribute [local semireducible] Rat.mul Rat.add Rat.sub Rat.inv

end RatEvalD

/-! ### The `str.contains` contract: lemmas and the corrected C3/C5 claims -/

theorem litEngine_faithful : ReEngine.Faithful litEngine := by
  constructor
  · intro pat h
    show (if regexLiteral pat = true
        then some (fun s => containsSubstr s pat) else none) =
      some (fun s => containsSubstr s pat)
    rw [if_pos h]
  · show (if regexLiteral "(" = true
        then some (fun s => containsSubstr s "(") else none) = none
    rw [if_neg (by decide)]

theorem narrowCandidates_error {E : ReEngine} {cands : List (String × Bus)}
    {sub : Option String} {e : GAErr}
    (h : narrowCandidates E cands sub = Except.error e) :
    e = GAErr.reError ∧ ∃ s, sub = some s ∧ s ≠ "" ∧ E.compile s = none := by
  match sub with
  | none =>
    simp only [narrowCandidates] at h
    exact Except.noConfusion h
  | some s =>
    simp only [narrowCandidates] at h
    by_cases hs : s = ""
    · rw [if_pos hs] at h
      exact Except.noConfusion h
    · rw [if_neg hs] at h
      cases hc : E.compile s with
      | none =>
        rw [hc] at h
        injection h with he
        exact ⟨he.symm, s, rfl, hs, hc⟩
      | some m =>
        rw [hc] at h
        exact Except.noConfusion h

theorem narrowCandidates_ok_subset {E : ReEngine}
    {cands cands2 : List (String × Bus)} {sub : Option String}
    (h : narrowCandidates E cands sub = Except.ok cands2) :
    cands2 ⊆ cands := by
  match sub with
  | none =>
    simp only [narrowCandidates] at h
    injection h with h2
    rw [← h2]
    exact fun a ha => ha
  | some s =>
    simp only [narrowCandidates] at h
    by_cases hs : s = ""
    · rw [if_pos hs] at h
      injection h with h2
      rw [← h2]
      exact fun a ha => ha
    · rw [if_neg hs] at h
      cases hc : E.compile s with
      | none =>
        rw [hc] at h
        exact Except.noConfusion h
      | some m =>
        rw [hc] at h
        injection h with h2
        rw [← h2]
        by_cases hemp : (cands.filter (fun b => m b.1)).isEmpty
        · rw [if_pos hemp]
          exact fun a ha => ha
        · rw [if_neg hemp]
          exact List.filter_subset' cands

theorem narrowCandidates_ok_ne_nil {E : ReEngine}
    {cands cands2 : List (String × Bus)} {sub : Option String}
    (hc : cands ≠ []) (h : narrowCandidates E cands sub = Except.ok cands2) :
    cands2 ≠ [] := by
  match sub with
  | none =>
    simp only [narrowCandidates] at h
    injection h with h2
    rw [← h2]
    exact hc
  | some s =>
    simp only [narrowCandidates] at h
    by_cases hs : s = ""
    · rw [if_pos hs] at h
      injection h with h2
      rw [← h2]
      exact hc
    · rw [if_neg hs] at h
      cases hcmp : E.compile s with
      | none =>
        rw [hcmp] at h
        exact Except.noConfusion h
      | some m =>
        rw [hcmp] at h
        injection h with h2
        rw [← h2]
        by_cases hemp : (cands.filter (fun b => m b.1)).isEmpty
        · rw [if_pos hemp]
          exact hc
        · rw [if_neg hemp]
          exact List.isEmpty_eq_false.mp (by simpa using hemp)

theorem closest_bus_re_eq_ite (E : ReEngine) (n : Network) (country : String)
    (la lo : Option ℚ) (sub : Option String) :
    closest_bus_re E n country la lo sub =
      if (countryCands n country).isEmpty then Except.error GAErr.valueError
      else
        match narrowCandidates E (countryCands n country) sub with
        | Except.error e => Except.error e
        | Except.ok cands2 => pickOrErr cands2 la lo := rfl

theorem closest_bus_re_empty {E : ReEngine} {n : Network} {country : String}
    (la lo : Option ℚ) (sub : Option String)
    (hc : countryCands n country = []) :
    closest_bus_re E n country la lo sub = Except.error GAErr.valueError := by
  rw [closest_bus_re_eq_ite, if_pos (by rw [hc]; rfl)]

theorem closest_bus_re_error_cases {E : ReEngine} {n : Network}
    {country : String} {la lo : Option ℚ} {sub : Option String} {e : GAErr}
    (h : closest_bus_re E n country la lo sub = Except.error e) :
    (e = GAErr.valueError ∧ countryCands n country = []) ∨
    (e = GAErr.reError ∧ countryCands n country ≠ [] ∧
      ∃ s, sub = some s ∧ s ≠ "" ∧ E.compile s = none) := by
  rw [closest_bus_re_eq_ite] at h
  by_cases hc : (countryCands n country).isEmpty
  · rw [if_pos hc] at h
    injection h with he
    exact Or.inl ⟨he.symm, List.isEmpty_iff.mp hc⟩
  · rw [if_neg hc] at h
    have hcne : countryCands n country ≠ [] :=
      List.isEmpty_eq_false.mp (by simpa using hc)
    cases hn : narrowCandidates E (countryCands n country) sub with
    | error e2 =>
      rw [hn] at h
      have h2 : (Except.error e2 : Except GAErr String) = Except.error e := h
      injection h2 with he
      rcases narrowCandidates_error hn with ⟨her, s, hss, hse, hcomp⟩
      exact Or.inr ⟨by rw [← he, her], hcne, s, hss, hse, hcomp⟩
    | ok cands2 =>
      rw [hn] at h
      have hne2 := narrowCandidates_ok_ne_nil hcne hn
      have hsome := pickClosest_isSome hne2 la lo
      have h2 : pickOrErr cands2 la lo = Except.error e := h
      simp only [pickOrErr] at h2
      cases hp : pickClosest cands2 la lo with
      | some lbl =>
        rw [hp] at h2
        exact Except.noConfusion h2
      | none =>
        rw [hp] at hsome
        exact absurd hsome (by simp)

theorem closest_bus_re_ok_mem {E : ReEngine} {n : Network} {country : String}
    {la lo : Option ℚ} {sub : Option String} {lbl : String}
    (h : closest_bus_re E n country la lo sub = Except.ok lbl) :
    ∃ p ∈ n.buses, p.1 = lbl := by
  rw [closest_bus_re_eq_ite] at h
  by_cases hc : (countryCands n country).isEmpty
  · rw [if_pos hc] at h
    exact Except.noConfusion h
  · rw [if_neg hc] at h
    cases hn : narrowCandidates E (countryCands n country) sub with
    | error e2 =>
      rw [hn] at h
      have h2 : (Except.error e2 : Except GAErr String) = Except.ok lbl := h
      exact Except.noConfusion h2
    | ok cands2 =>
      rw [hn] at h
      have h2 : pickOrErr cands2 la lo = Except.ok lbl := h
      simp only [pickOrErr] at h2
      cases hp : pickClosest cands2 la lo with
      | none =>
        rw [hp] at h2
        exact Except.noConfusion h2
      | some l2 =>
        rw [hp] at h2
        have h3 : (Except.ok l2 : Except GAErr String) = Except.ok lbl := h2
        injection h3 with hl2
        rcases pickClosest_mem hp with ⟨p, hpm, hp1⟩
        refine ⟨p, ?_, by rw [hp1]; exact hl2⟩
        exact List.filter_subset' n.buses (narrowCandidates_ok_subset hn hpm)

/-- Unfolding equation for `add_green_ammonia_re`. -/
theorem add_green_ammonia_re_eq {σ κ : Type} (E : ReEngine) (n : Network)
    (s : σ) (cfg : Config) (k : κ) :
    add_green_ammonia_re E n s cfg k =
      if (_get_cfg cfg).enable.getD false then
        match closest_bus_re E n ((_get_cfg cfg).country_code.getD "ES")
            ((_get_cfg cfg).location.getD emptyLocation).latitude
            ((_get_cfg cfg).location.getD emptyLocation).longitude
            ((_get_cfg cfg).location.getD emptyLocation).bus_substring with
        | Except.error e => (n, some e)
        | Except.ok base_bus => inject_at n (_get_cfg cfg) base_bus
      else (n, none) := by
  simp only [add_green_ammonia_re]
  by_cases h : (_get_cfg cfg).enable.getD false
  · simp [h]
  · simp [h]

/-- On literal (or absent, or empty) filters, the contract-level narrowing
never raises and agrees with the restricted narrowing. -/
theorem narrowCandidates_literal (E : ReEngine) (hE : ReEngine.Faithful E)
    (cands : List (String × Bus)) (sub : Option String)
    (hlit : sub = none ∨ sub = some "" ∨
      ∃ pat, sub = some pat ∧ regexLiteral pat = true) :
    narrowCandidates E cands sub = Except.ok (applySubstring cands sub) := by
  rcases hlit with h | h | ⟨pat, hp, hl⟩
  · subst h
    rfl
  · subst h
    simp [narrowCandidates, applySubstring]
  · subst hp
    by_cases hse : pat = ""
    · simp [narrowCandidates, applySubstring, hse]
    · simp only [narrowCandidates, applySubstring, if_neg hse]
      rw [hE.1 pat hl]

/-- On the literal fragment the contract-level resolver agrees with the
restricted resolver. -/
theorem closest_bus_re_agrees (E : ReEngine) (hE : ReEngine.Faithful E)
    (n : Network) (country : String) (la lo : Option ℚ) (sub : Option String)
    (hlit : sub = none ∨ sub = some "" ∨
      ∃ pat, sub = some pat ∧ regexLiteral pat = true) :
    closest_bus_re E n country la lo sub =
      match closest_bus n country la lo sub with
      | some lbl => Except.ok lbl
      | none => Except.error GAErr.valueError := by
  rw [closest_bus_re_eq_ite, closest_bus_eq_ite]
  by_cases hc : (countryCands n country).isEmpty
  · rw [if_pos hc, if_pos hc]
  · rw [if_neg hc, if_neg hc,
      narrowCandidates_literal E hE (countryCands n country) sub hlit]
    show pickOrErr (applySubstring (countryCands n country) sub) la lo = _
    simp only [pickOrErr]

/-- On the literal fragment the contract-level hook agrees with the
restricted hook. -/
theorem add_green_ammonia_re_agrees {σ κ : Type} (E : ReEngine)
    (hE : ReEngine.Faithful E) (n : Network) (s : σ) (cfg : Config) (k : κ)
    (hlit : ((_get_cfg cfg).location.getD emptyLocation).bus_substring = none
      ∨ ((_get_cfg cfg).location.getD emptyLocation).bus_substring = some ""
      ∨ ∃ pat, ((_get_cfg cfg).location.getD emptyLocation).bus_substring =
          some pat ∧ regexLiteral pat = true) :
    add_green_ammonia_re E n s cfg k = add_green_ammonia n s cfg k := by
  rw [add_green_ammonia_re_eq, add_green_ammonia_eq]
  by_cases hen : (_get_cfg cfg).enable.getD false
  · rw [if_pos hen, if_pos hen,
      closest_bus_re_agrees E hE n _ _ _ _ hlit]
    cases hcb : closest_bus n ((_get_cfg cfg).country_code.getD "ES")
        ((_get_cfg cfg).location.getD emptyLocation).latitude
        ((_get_cfg cfg).location.getD emptyLocation).longitude
        ((_get_cfg cfg).location.getD emptyLocation).bus_substring with
    | none => rfl
    | some base => rfl
  · rw [if_neg hen, if_neg hen]

/-- C5 is false as stated: a supplied substring filter may itself raise.
Under the Python `re` contract (the `litEngine` instance realises the two
documented facts) the supplied pattern "(" fails to compile, and
`_closest_bus` raises `re.error` even though country candidates exist. -/
theorem substring_error_counterexample :
    ReEngine.Faithful litEngine ∧
    countryCands triNet "ES" ≠ [] ∧
    closest_bus_re litEngine triNet "ES" none none (some "(") =
      Except.error GAErr.reError :=
  ⟨litEngine_faithful, by decide, rfl⟩

/-- C5 (amended): for every supplied substring filter whose pattern
compiles, `_closest_bus` applies the filter only when it narrows the
country-filtered candidate set to a non-empty subset; when the compiled
pattern matches no candidate, the full country-filtered set is silently
kept; and with such a filter the resolver errors exactly on an empty
country-filtered set, never because of the substring.  A pattern that fails
to compile instead raises `re.error`. -/
theorem substring_fallback_re (E : ReEngine) (n : Network)
    (country s : String) (m : String → Bool) (lat lon : Option ℚ)
    (hs : s ≠ "") (hm : E.compile s = some m) :
    ((countryCands n country).filter (fun b => m b.1) = [] →
      narrowCandidates E (countryCands n country) (some s) =
        Except.ok (countryCands n country)) ∧
    ((countryCands n country).filter (fun b => m b.1) ≠ [] →
      narrowCandidates E (countryCands n country) (some s) =
        Except.ok ((countryCands n country).filter (fun b => m b.1))) ∧
    (∀ e, closest_bus_re E n country lat lon (some s) = Except.error e →
      e = GAErr.valueError ∧ countryCands n country = []) := by
  refine ⟨fun h => ?_, fun h => ?_, fun e he => ?_⟩
  · simp only [narrowCandidates, if_neg hs, hm]
    rw [h]
    rfl
  · simp only [narrowCandidates, if_neg hs, hm]
    rw [if_neg (by rw [Bool.not_eq_true, List.isEmpty_eq_false]; exact h)]
  · rcases closest_bus_re_error_cases he with ⟨h1, h2⟩ |
      ⟨h1, h2, s2, hs2, hse2, hcomp⟩
    · exact ⟨h1, h2⟩
    · injection hs2 with hs2e
      rw [← hs2e, hm] at hcomp
      exact Option.noConfusion hcomp

theorem substring_fallback_re_witness :
    ("zz" : String) ≠ "" ∧
    litEngine.compile "zz" = some (fun str => containsSubstr str "zz") ∧
    (countryCands triNet "ES").filter
      (fun b => containsSubstr b.1 "zz") = [] ∧
    narrowCandidates litEngine (countryCands triNet "ES") (some "zz") =
      Except.ok (countryCands triNet "ES") ∧
    (∀ e, closest_bus_re litEngine triNet "ES" none none (some "zz") =
      Except.error e →
      e = GAErr.valueError ∧ countryCands triNet "ES" = []) := by
  have hm : litEngine.compile "zz" =
      some (fun str => containsSubstr str "zz") := rfl
  refine ⟨by decide, hm, by decide, ?_, ?_⟩
  · exact (substring_fallback_re litEngine triNet "ES" "zz"
      (fun str => containsSubstr str "zz") none none (by decide) hm).1
      (by decide)
  · exact (substring_fallback_re litEngine triNet "ES" "zz"
      (fun str => containsSubstr str "zz") none none (by decide) hm).2.2

/-- C3's "this is the only fatal runtime condition" is false: under the
Python `re` contract (realised by `litEngine`), an enabled run with
`bus_substring = "("` on a network that does have buses in the requested
country raises `re.error` — a second fatal condition, distinct from the
no-bus error (which is itself a `ValueError`, not a `LookupError`-class
exception). -/
theorem error_exclusivity_counterexample :
    ReEngine.Faithful litEngine ∧
    countryCands demoNet "ES" ≠ [] ∧
    (_get_cfg parenCfg).enable.getD false = true ∧
    add_green_ammonia_re litEngine demoNet (0 : ℕ) parenCfg (0 : ℕ) =
      (demoNet, some GAErr.reError) :=
  ⟨litEngine_faithful, by decide, by decide, rfl⟩

/-- C3 (amended): with the hook enabled and no bus in the requested country,
`add_green_ammonia` raises a `ValueError` (not a `LookupError`-class
exception) with the network completely unchanged.  Every raised error leaves
the network unchanged and is either this `ValueError` (empty country
candidate set) or the `re.error` of an uncompilable `bus_substring` pattern
(non-empty candidate set); with an absent, empty, or compiling filter the
`ValueError` is therefore the only fatal runtime condition. -/
theorem add_green_ammonia_re_error_spec {σ κ : Type} (E : ReEngine)
    (n : Network) (s : σ) (cfg : Config) (k : κ) :
    ((_get_cfg cfg).enable.getD false = true →
      countryCands n ((_get_cfg cfg).country_code.getD "ES") = [] →
      add_green_ammonia_re E n s cfg k = (n, some GAErr.valueError)) ∧
    (∀ e, (add_green_ammonia_re E n s cfg k).2 = some e →
      (add_green_ammonia_re E n s cfg k).1 = n ∧
      (_get_cfg cfg).enable.getD false = true ∧
      ((e = GAErr.valueError ∧
        countryCands n ((_get_cfg cfg).country_code.getD "ES") = []) ∨
       (e = GAErr.reError ∧
        countryCands n ((_get_cfg cfg).country_code.getD "ES") ≠ [] ∧
        ∃ pat, ((_get_cfg cfg).location.getD emptyLocation).bus_substring =
          some pat ∧ pat ≠ "" ∧ E.compile pat = none))) := by
  constructor
  · intro hen hcc
    rw [add_green_ammonia_re_eq, if_pos hen,
      closest_bus_re_empty ((_get_cfg cfg).location.getD
        emptyLocation).latitude
        ((_get_cfg cfg).location.getD emptyLocation).longitude
        ((_get_cfg cfg).location.getD emptyLocation).bus_substring hcc]
  · intro e he
    rw [add_green_ammonia_re_eq] at he
    by_cases hen : (_get_cfg cfg).enable.getD false
    · rw [if_pos hen] at he
      cases hcb : closest_bus_re E n ((_get_cfg cfg).country_code.getD "ES")
          ((_get_cfg cfg).location.getD emptyLocation).latitude
          ((_get_cfg cfg).location.getD emptyLocation).longitude
          ((_get_cfg cfg).location.getD emptyLocation).bus_substring with
      | error e2 =>
        rw [hcb] at he
        have he2 : some e2 = some e := he
        injection he2 with he3
        refine ⟨?_, hen, ?_⟩
        · rw [add_green_ammonia_re_eq, if_pos hen, hcb]
        · rw [← he3]
          exact closest_bus_re_error_cases hcb
      | ok base =>
        rw [hcb] at he
        rcases closest_bus_re_ok_mem hcb with ⟨p, hp, hp1⟩
        rcases Option.isSome_iff_exists.mp (lookupKey_isSome_of_mem hp) with
          ⟨bRec, hbRec⟩
        rw [hp1] at hbRec
        have hsnd := inject_at_snd_eq_none n (_get_cfg cfg) base bRec hbRec
        have he2 : (inject_at n (_get_cfg cfg) base).2 = some e := he
        rw [hsnd] at he2
        exact Option.noConfusion he2
    · rw [if_neg hen] at he
      have he2 : (none : Option GAErr) = some e := he
      exact Option.noConfusion he2

theorem add_green_ammonia_re_error_spec_witness :
    (_get_cfg enableCfg).enable.getD false = true ∧
    countryCands deNet ((_get_cfg enableCfg).country_code.getD "ES") = [] ∧
    add_green_ammonia_re litEngine deNet (0 : ℕ) enableCfg (0 : ℕ) =
      (deNet, some GAErr.valueError) :=
  ⟨by decide, by decide,
   (add_green_ammonia_re_error_spec litEngine deNet 0 enableCfg 0).1
     (by decide) (by decide)⟩
